import Mathlib

/-!
# Verification of the YUTorah podcast downloader

A shallow embedding, in Lean 4, of the core logic of
`download_podcasts.py` (and the shared helpers reused by `app.py`):

* `extract_shiur_id` — episode-identifier extraction from a detail URL;
* `extract_episode_links` — RSS item traversal;
* the four-strategy episode-data extraction chain
  (`get_mp3_url_from_page` and `_extract_from_*` helpers);
* `_normalize_episode_data`;
* `sanitize_filename`;
* `load_downloaded_shiurim` / `save_downloaded_shiurim`;
* `download_mp3` (effects modelled by an explicit file-system list and a
  network-behaviour parameter);
* the "new episode" reconciliation loop shared by `main` and `check_feed`.

Python regular-expression calls are embedded as direct scanning functions
over `List Char`, each written to follow the backtracking behaviour of the
original pattern; the original pattern is quoted in the doc comment of the
corresponding definition.  Python `re.findall`-style loops use an explicit
fuel argument (`input length + 1`), which is sufficient because every step
consumes at least one character; the fuel-exhaustion branches are chosen so
that the invariant lemmas below hold for every fuel value.
-/

namespace YuTorah

/-- The set of characters Python treats as whitespace for `str.strip()` and
for `\s` in `re` patterns on `str` (Py_UNICODE_ISSPACE). -/
def isPySpace (c : Char) : Bool :=
  [9, 10, 11, 12, 13, 28, 29, 30, 31, 32, 0x85, 0xA0, 0x1680].contains c.toNat ||
  (0x2000 ≤ c.toNat && c.toNat ≤ 0x200A) ||
  [0x2028, 0x2029, 0x202F, 0x205F, 0x3000].contains c.toNat

/-- Exact (case-sensitive) list prefix test. -/
def lcharsStartsWith : List Char → List Char → Bool
  | [], _ => true
  | p :: ps, l =>
    match l with
    | c :: cs => p == c && lcharsStartsWith ps cs
    | [] => false

/-- Case-insensitive list prefix test (Python `re.IGNORECASE`). -/
def lcharsStartsWithCI : List Char → List Char → Bool
  | [], _ => true
  | p :: ps, l =>
    match l with
    | c :: cs => p.toLower == c.toLower && lcharsStartsWithCI ps cs
    | [] => false

/-- Does `pat` occur (case-sensitively) as a contiguous substring of `l`? -/
def containsSub (pat : List Char) : List Char → Bool
  | [] => lcharsStartsWith pat []
  | c :: rest => lcharsStartsWith pat (c :: rest) || containsSub pat rest

/-- Does `pat` occur case-insensitively as a contiguous substring of `l`? -/
def containsSubCI (pat : List Char) : List Char → Bool
  | [] => lcharsStartsWithCI pat []
  | c :: rest => lcharsStartsWithCI pat (c :: rest) || containsSubCI pat rest

/-- Split at the first (case-sensitive) occurrence of `pat`, returning the
text before the occurrence and the text after it. -/
def splitFirst (pat : List Char) : List Char → Option (List Char × List Char)
  | [] => if lcharsStartsWith pat [] then some ([], []) else none
  | c :: rest =>
    if lcharsStartsWith pat (c :: rest) then some ([], (c :: rest).drop pat.length)
    else match splitFirst pat rest with
      | some (pre, post) => some (c :: pre, post)
      | none => none

/-- Split at the first case-insensitive occurrence of `pat`. -/
def splitFirstCI (pat : List Char) : List Char → Option (List Char × List Char)
  | [] => if lcharsStartsWithCI pat [] then some ([], []) else none
  | c :: rest =>
    if lcharsStartsWithCI pat (c :: rest) then some ([], (c :: rest).drop pat.length)
    else match splitFirstCI pat rest with
      | some (pre, post) => some (c :: pre, post)
      | none => none

/-- Generic model of `re.findall`: scan left to right; at each position try
the deterministic matcher `tm`; on a match emit its payload and continue
after the consumed text, otherwise advance one character.  `fuel` bounds the
number of steps; the callers pass `length + 1`, which suffices because every
matcher used here consumes at least one character on success. -/
def scanAllAux (tm : List Char → Option (α × List Char)) : Nat → List Char → List α
  | 0, _ => []
  | _ + 1, [] => []
  | fuel + 1, c :: rest =>
    match tm (c :: rest) with
    | some (a, rem) => a :: scanAllAux tm fuel rem
    | none => scanAllAux tm fuel rest

def scanAll (tm : List Char → Option (α × List Char)) (l : List Char) : List α :=
  scanAllAux tm (l.length + 1) l

/-- Every payload produced by `scanAllAux` comes from a successful run of the
matcher on some suffix of the input. -/
theorem mem_scanAllAux {α : Type} {tm : List Char → Option (α × List Char)} {a : α} :
    ∀ {fuel : Nat} {l : List Char}, a ∈ scanAllAux tm fuel l →
      ∃ l' r, tm l' = some (a, r) := by
  intro fuel
  induction fuel with
  | zero => intro l h; simp [scanAllAux] at h
  | succ n ih =>
    intro l h
    cases l with
    | nil => simp [scanAllAux] at h
    | cons c rest =>
      cases htm : tm (c :: rest) with
      | some p =>
        obtain ⟨a', rem⟩ := p
        have heq : scanAllAux tm (n + 1) (c :: rest) = a' :: scanAllAux tm n rem := by
          rw [scanAllAux, htm]
        rw [heq] at h
        rcases List.mem_cons.mp h with rfl | h
        · exact ⟨c :: rest, rem, htm⟩
        · exact ih h
      | none =>
        have heq : scanAllAux tm (n + 1) (c :: rest) = scanAllAux tm n rest := by
          rw [scanAllAux, htm]
        rw [heq] at h
        exact ih h

theorem mem_scanAll {α : Type} {tm : List Char → Option (α × List Char)} {a : α}
    {l : List Char} (h : a ∈ scanAll tm l) : ∃ l' r, tm l' = some (a, r) :=
  mem_scanAllAux h

/-- Generic model of `re.sub`: scan left to right; on a match splice in the
replacement text produced by `tm` and continue after the consumed text,
otherwise keep the character.  On fuel exhaustion the remaining input is kept
unchanged (unreachable for the fuel the callers pass). -/
def subAllAux (tm : List Char → Option (List Char × List Char)) : Nat → List Char → List Char
  | 0, l => l
  | _ + 1, [] => []
  | fuel + 1, c :: rest =>
    match tm (c :: rest) with
    | some (repl, rem) => repl ++ subAllAux tm fuel rem
    | none => c :: subAllAux tm fuel rest

def subAll (tm : List Char → Option (List Char × List Char)) (l : List Char) : List Char :=
  subAllAux tm (l.length + 1) l

/-- Character-level invariant preservation for `subAllAux`: if the matcher
only emits good replacement text and only continues on suffixes of its
input, goodness of all characters is preserved. -/
theorem subAllAux_all {tm : List Char → Option (List Char × List Char)} {P : Char → Prop}
    (htm : ∀ l repl rem, tm l = some (repl, rem) →
      (∀ c ∈ repl, P c) ∧ (∀ c ∈ rem, c ∈ l)) :
    ∀ {fuel : Nat} {l : List Char}, (∀ c ∈ l, P c) → ∀ c ∈ subAllAux tm fuel l, P c := by
  intro fuel
  induction fuel with
  | zero => intro l hl; simpa [subAllAux] using hl
  | succ n ih =>
    intro l hl
    cases l with
    | nil => simp [subAllAux]
    | cons c rest =>
      cases htm' : tm (c :: rest) with
      | some p =>
        obtain ⟨repl, rem⟩ := p
        have heq : subAllAux tm (n + 1) (c :: rest) = repl ++ subAllAux tm n rem := by
          rw [subAllAux, htm']
        rw [heq]
        intro d hd
        rcases List.mem_append.mp hd with hd | hd
        · exact (htm _ _ _ htm').1 d hd
        · exact ih (fun e he => hl e ((htm _ _ _ htm').2 e he)) d hd
      | none =>
        have heq : subAllAux tm (n + 1) (c :: rest) = c :: subAllAux tm n rest := by
          rw [subAllAux, htm']
        rw [heq]
        intro d hd
        rcases List.mem_cons.mp hd with rfl | hd
        · exact hl d (List.mem_cons_self _ _)
        · exact ih (fun e he => hl e (List.mem_cons_of_mem _ he)) d hd

theorem subAll_all {tm : List Char → Option (List Char × List Char)} {P : Char → Prop}
    (htm : ∀ l repl rem, tm l = some (repl, rem) →
      (∀ c ∈ repl, P c) ∧ (∀ c ∈ rem, c ∈ l))
    {l : List Char} (hl : ∀ c ∈ l, P c) : ∀ c ∈ subAll tm l, P c :=
  subAllAux_all htm hl

/-! ## Percent-decoding and query-string parsing (`urllib.parse`)

`extract_shiur_id` relies on `urlparse` and `parse_qs`.  We embed the parts
actually exercised: fragment/query splitting, the bracket-mismatch
`ValueError` raised by `urlsplit` for invalid IPv6 netlocs, and
`parse_qs` field splitting with `+`/percent decoding (default
`keep_blank_values=False`, separator `'&'`). -/

def hexDigitVal (c : Char) : Option Nat :=
  let v := c.toNat
  if 48 ≤ v && v ≤ 57 then some (v - 48)
  else if 97 ≤ v && v ≤ 102 then some (v - 87)
  else if 65 ≤ v && v ≤ 70 then some (v - 55)
  else none

/-- `urllib.parse.unquote` restricted to single-byte escapes: `%hh` becomes
the character with that code, other text passes through.  (Multi-byte UTF-8
escape sequences are outside the model; they decode here byte by byte.) -/
def pyUnquote : List Char → List Char
  | [] => []
  | '%' :: a :: b :: rest =>
    match hexDigitVal a, hexDigitVal b with
    | some ha, some hb => Char.ofNat (16 * ha + hb) :: pyUnquote rest
    | _, _ => '%' :: pyUnquote (a :: b :: rest)
  | c :: rest => c :: pyUnquote rest

theorem pyUnquote_ne_nil : ∀ {l : List Char}, l ≠ [] → pyUnquote l ≠ [] := by
  intro l hl
  rw [pyUnquote.eq_def]
  split
  · exact absurd rfl hl
  · split <;> simp
  · simp

/-- The decoding applied by `parse_qsl` to each name and value:
`+` becomes a space, then percent escapes are decoded. -/
def qsDecode (l : List Char) : List Char :=
  pyUnquote (l.map fun c => if c = '+' then ' ' else c)

theorem qsDecode_ne_nil {l : List Char} (h : l ≠ []) : qsDecode l ≠ [] :=
  pyUnquote_ne_nil (by simpa using h)

/-- Split a list on every occurrence of the separator character
(Python `str.split(sep)` for a one-character separator). -/
def splitOnChar (sep : Char) : List Char → List (List Char)
  | [] => [[]]
  | c :: rest =>
    let r := splitOnChar sep rest
    if c = sep then [] :: r
    else match r with
      | g :: gs => (c :: g) :: gs
      | [] => [[c]]

/-- One field of `parse_qsl`: split at the first `=`; skip empty fields,
fields with no `=`, and fields with an empty value (`keep_blank_values`
defaults to `False`); decode name and value. -/
def parseQslField (field : List Char) : Option (List Char × List Char) :=
  if field = [] then none
  else match splitFirst ['='] field with
    | none => none
    | some (name, value) =>
      if value = [] then none else some (qsDecode name, qsDecode value)

/-- `urllib.parse.parse_qsl(query)` with the default options. -/
def parseQsl (query : List Char) : List (List Char × List Char) :=
  (splitOnChar '&' query).filterMap parseQslField

/-- The first value listed for key `k` — `parse_qs(query)[k][0]` — or `none`
when the key is absent. -/
def parseQsFirst (query : List Char) (k : List Char) : Option (List Char) :=
  ((parseQsl query).find? fun p => p.1 = k).map (·.2)

/-! ## `urlparse` pieces -/

/-- Keep the text before the first occurrence of any character in `stops`. -/
def takeUntilAny (stops : List Char) : List Char → List Char
  | [] => []
  | c :: rest => if stops.contains c then [] else c :: takeUntilAny stops rest

/-- Drop through the first occurrence of `sep`; `none` if `sep` is absent. -/
def dropThroughChar (sep : Char) : List Char → Option (List Char)
  | [] => none
  | c :: rest => if c = sep then some rest else dropThroughChar sep rest

/-- The query component of a URL as computed by `urllib.parse.urlsplit`:
drop the fragment (everything from the first `#`), then take everything
after the first `?` of what remains. -/
def urlQuery (url : List Char) : List Char :=
  match dropThroughChar '?' (takeUntilAny ['#'] url) with
  | some q => q
  | none => []

/-- The netloc component: present only when the text after `scheme:` (or the
whole URL, absent a scheme) starts with `//`; it extends to the next
`/`, `?` or `#`. -/
def urlNetloc (url : List Char) : List Char :=
  let noFrag := takeUntilAny ['#'] url
  let afterScheme :=
    match splitFirst [':'] noFrag with
    | some (scheme, rest) =>
      if scheme ≠ [] && scheme.all (fun c => c.isAlpha || c.isDigit || c = '+' || c = '-' || c = '.') &&
         (match scheme with | c :: _ => c.isAlpha | [] => false) then rest else noFrag
    | none => noFrag
  if lcharsStartsWith ['/', '/'] afterScheme then
    takeUntilAny ['/', '?', '#'] (afterScheme.drop 2)
  else []

/-- `urlsplit` raises `ValueError("Invalid IPv6 URL")` when the netloc
contains `[` without `]` or vice versa. -/
def urlparseRaises (url : List Char) : Bool :=
  let netloc := urlNetloc url
  (netloc.contains '[' && !netloc.contains ']') ||
  (netloc.contains ']' && !netloc.contains '[')

/-- The path component: after the netloc (or the scheme colon), everything
up to the first `?` or `#`. -/
def urlPath (url : List Char) : List Char :=
  let noFrag := takeUntilAny ['#'] url
  let afterScheme :=
    match splitFirst [':'] noFrag with
    | some (scheme, rest) =>
      if scheme ≠ [] && scheme.all (fun c => c.isAlpha || c.isDigit || c = '+' || c = '-' || c = '.') &&
         (match scheme with | c :: _ => c.isAlpha | [] => false) then rest else noFrag
    | none => noFrag
  if lcharsStartsWith ['/', '/'] afterScheme then
    let afterNetloc := (afterScheme.drop 2).dropWhile (fun c => c ≠ '/' && c ≠ '?' && c ≠ '#')
    takeUntilAny ['?', '#'] afterNetloc
  else takeUntilAny ['?', '#'] afterScheme

/-! ## `extract_shiur_id` (download_podcasts.py lines 70–105) -/

/-- `(\d+)` anchored at the current position: a maximal nonempty digit run. -/
def digitRun : List Char → Option (List Char)
  | c :: rest => if c.isDigit then some (c :: rest.takeWhile Char.isDigit) else none
  | [] => none

theorem digitRun_some {l d : List Char} (h : digitRun l = some d) :
    d ≠ [] ∧ d.all Char.isDigit := by
  match l with
  | [] => simp [digitRun] at h
  | c :: rest =>
    rw [digitRun] at h
    by_cases hc : c.isDigit
    · rw [if_pos hc] at h
      obtain rfl := Option.some.inj h
      refine ⟨by simp, ?_⟩
      simp only [List.all_cons, hc, Bool.true_and, List.all_eq_true]
      exact fun x hx => List.mem_takeWhile_imp hx
    · rw [if_neg hc] at h; exact absurd h (by simp)

/-- Attempt, at the current position, the regex
`/lectures/(?:lecture\.cfm/|details/)?(\d+)` (case-sensitive): the literal
`/lectures/`, then optionally `lecture.cfm/` or `details/` (the alternatives
are tried in that order and can never both apply at the same position; on
digit failure the engine backtracks to the empty alternative), then a
maximal nonempty digit run, which is the captured group. -/
def lecturesMatchAt (l : List Char) : Option (List Char) :=
  if lcharsStartsWith ("/lectures/".toList) l then
    match (if lcharsStartsWith ("lecture.cfm/".toList) (l.drop 10) then digitRun (l.drop 22)
           else if lcharsStartsWith ("details/".toList) (l.drop 10) then digitRun (l.drop 18)
           else none) with
    | some d => some d
    | none => digitRun (l.drop 10)
  else none

theorem lecturesMatchAt_some {l d : List Char} (h : lecturesMatchAt l = some d) :
    d ≠ [] ∧ d.all Char.isDigit := by
  unfold lecturesMatchAt at h
  by_cases h1 : lcharsStartsWith ("/lectures/".toList) l
  · rw [if_pos h1] at h
    cases halt : (if lcharsStartsWith ("lecture.cfm/".toList) (l.drop 10) then digitRun (l.drop 22)
           else if lcharsStartsWith ("details/".toList) (l.drop 10) then digitRun (l.drop 18)
           else none) with
    | some e =>
      rw [halt] at h
      obtain rfl := Option.some.inj h
      by_cases h2 : lcharsStartsWith ("lecture.cfm/".toList) (l.drop 10)
      · rw [if_pos h2] at halt; exact digitRun_some halt
      · rw [if_neg h2] at halt
        by_cases h3 : lcharsStartsWith ("details/".toList) (l.drop 10)
        · rw [if_pos h3] at halt; exact digitRun_some halt
        · rw [if_neg h3] at halt; exact absurd halt (by simp)
    | none => rw [halt] at h; exact digitRun_some h
  · rw [if_neg h1] at h; exact absurd h (by simp)

/-- `re.search` for the pattern of `lecturesMatchAt`: first matching
position, scanning left to right. -/
def lecturesSearch : List Char → Option (List Char)
  | [] => none
  | c :: rest =>
    match lecturesMatchAt (c :: rest) with
    | some d => some d
    | none => lecturesSearch rest

/-- Attempt, at the current position, the regex `shiurID[=:](\d+)`. -/
def shiurIdFallbackAt (l : List Char) : Option (List Char) :=
  if lcharsStartsWith ("shiurID".toList) l then
    match l.drop 7 with
    | c :: rest => if c = '=' || c = ':' then digitRun rest else none
    | [] => none
  else none

theorem shiurIdFallbackAt_some {l d : List Char} (h : shiurIdFallbackAt l = some d) :
    d ≠ [] ∧ d.all Char.isDigit := by
  unfold shiurIdFallbackAt at h
  split at h
  · split at h
    · split at h
      · exact digitRun_some h
      · exact absurd h (by simp)
    · exact absurd h (by simp)
  · exact absurd h (by simp)

/-- `re.search(r'shiurID[=:](\d+)', page_url)`. -/
def shiurIdFallbackSearch : List Char → Option (List Char)
  | [] => none
  | c :: rest =>
    match shiurIdFallbackAt (c :: rest) with
    | some d => some d
    | none => shiurIdFallbackSearch rest

/-- Format 1 of `extract_shiur_id`: the first value of the `shiurID` query
parameter.  The surrounding `try/except: pass` swallows the `urlsplit`
bracket `ValueError`, in which case this format yields nothing. -/
def queryShiurId (url : String) : Option String :=
  if urlparseRaises url.toList then none
  else (parseQsFirst (urlQuery url.toList) ("shiurID".toList)).map List.asString

/-- `extract_shiur_id(page_url)` (download_podcasts.py lines 70–105):
try the `shiurID` query parameter, then the
`/lectures/(?:lecture\.cfm/|details/)?(\d+)` path pattern, then the
`shiurID[=:](\d+)` fallback; `None` when all three fail. -/
def extract_shiur_id (url : String) : Option String :=
  match queryShiurId url with
  | some v => some v
  | none =>
    match lecturesSearch url.toList with
    | some d => some d.asString
    | none =>
      match shiurIdFallbackSearch url.toList with
      | some d => some d.asString
      | none => none

/-- The extraction chain written as an ordered first-success choice, used to
state the ordering clause of the spec. -/
def shiurIdChain (url : String) : Option String :=
  (queryShiurId url).orElse fun _ =>
    ((lecturesSearch url.toList).map List.asString).orElse fun _ =>
      (shiurIdFallbackSearch url.toList).map List.asString

theorem lecturesSearch_some : ∀ {l d : List Char}, lecturesSearch l = some d →
    d ≠ [] ∧ d.all Char.isDigit := by
  intro l
  induction l with
  | nil => intro d h; simp [lecturesSearch] at h
  | cons c rest ih =>
    intro d h
    rw [lecturesSearch] at h
    cases hm : lecturesMatchAt (c :: rest) with
    | some e => rw [hm] at h; obtain rfl := Option.some.inj h; exact lecturesMatchAt_some hm
    | none => rw [hm] at h; exact ih h

theorem shiurIdFallbackSearch_some : ∀ {l d : List Char}, shiurIdFallbackSearch l = some d →
    d ≠ [] ∧ d.all Char.isDigit := by
  intro l
  induction l with
  | nil => intro d h; simp [shiurIdFallbackSearch] at h
  | cons c rest ih =>
    intro d h
    rw [shiurIdFallbackSearch] at h
    cases hm : shiurIdFallbackAt (c :: rest) with
    | some e => rw [hm] at h; obtain rfl := Option.some.inj h; exact shiurIdFallbackAt_some hm
    | none => rw [hm] at h; exact ih h

theorem parseQslField_value_ne_nil {f : List Char} {p : List Char × List Char}
    (h : parseQslField f = some p) : p.2 ≠ [] := by
  unfold parseQslField at h
  split at h
  · exact absurd h (by simp)
  · split at h
    · exact absurd h (by simp)
    · split at h
      · exact absurd h (by simp)
      next hv =>
        obtain rfl := Option.some.inj h
        exact qsDecode_ne_nil hv

theorem queryShiurId_ne_empty {url : String} {v : String}
    (h : queryShiurId url = some v) : v ≠ "" := by
  unfold queryShiurId at h
  split at h
  · exact absurd h (by simp)
  · rw [Option.map_eq_some'] at h
    obtain ⟨l, hl, rfl⟩ := h
    unfold parseQsFirst at hl
    rw [Option.map_eq_some'] at hl
    obtain ⟨p, hp, rfl⟩ := hl
    have hmem := List.mem_of_find?_eq_some hp
    obtain ⟨f, _, hf⟩ := List.mem_filterMap.mp hmem
    have := parseQslField_value_ne_nil hf
    intro hcon
    rw [List.asString_eq] at hcon
    exact this hcon

/-- Non-null identifiers are nonempty strings.  The identifier is either a
kept (hence nonempty) query-parameter value, or a nonempty digit run from
one of the two regular expressions.  Python's driver tests the identifier
for truthiness (`if shiur_id and ...`), so this is what makes truthiness
coincide with non-nullness there. -/
theorem extract_shiur_id_ne_empty {url : String} {v : String}
    (h : extract_shiur_id url = some v) : v ≠ "" := by
  unfold extract_shiur_id at h
  cases hq : queryShiurId url with
  | some w => rw [hq] at h; obtain rfl := Option.some.inj h; exact queryShiurId_ne_empty hq
  | none =>
    rw [hq] at h
    cases hl : lecturesSearch url.toList with
    | some d =>
      rw [hl] at h; obtain rfl := Option.some.inj h
      have hd := (lecturesSearch_some hl).1
      intro hcon; rw [List.asString_eq] at hcon; exact hd hcon
    | none =>
      rw [hl] at h
      cases hf : shiurIdFallbackSearch url.toList with
      | some d =>
        rw [hf] at h; obtain rfl := Option.some.inj h
        have hd := (shiurIdFallbackSearch_some hf).1
        intro hcon; rw [List.asString_eq] at hcon; exact hd hcon
      | none => rw [hf] at h; exact absurd h (by simp)

/-! ## Reconciliation (download_podcasts.py `main`, lines 604–610, and
app.py `check_feed`, lines 213–218 — the two loops are identical) -/

/-- The "filter out already downloaded episodes" loop:
`if shiur_id and shiur_id in downloaded_shiurim: continue`.
`shiur_id` is truthy exactly when it is a non-`None`, nonempty string. -/
def computeNewEpisodes (episodes : List (String × String)) (archived : Finset String) :
    List (String × String × Option String) :=
  match episodes with
  | [] => []
  | (title, url) :: rest =>
    let sid := extract_shiur_id url
    if (match sid with | some s => !(s == "") && decide (s ∈ archived) | none => false) then
      computeNewEpisodes rest archived
    else (title, url, sid) :: computeNewEpisodes rest archived

/-- The reconciliation contract as the spec words it: keep exactly the
references whose URL-derived identifier is null or not archived, in order. -/
def computeNewSpec (episodes : List (String × String)) (archived : Finset String) :
    List (String × String × Option String) :=
  episodes.filterMap fun p =>
    match extract_shiur_id p.2 with
    | none => some (p.1, p.2, none)
    | some s => if s ∈ archived then none else some (p.1, p.2, some s)

/-- C4: for every ordered episode list `E` and archived-identifier set `S`,
the reconciliation loop keeps exactly the references whose URL-derived
identifier is `none` or not a member of `S`, in input order; a reference is
dropped only when its identifier is non-null and archived.  The loop's
truthiness test (`if shiur_id and shiur_id in downloaded_shiurim`) agrees
with the non-nullness test because extracted identifiers are never empty
strings (`extract_shiur_id_ne_empty`). -/
theorem computeNewEpisodes_eq_spec (E : List (String × String)) (S : Finset String) :
    computeNewEpisodes E S = computeNewSpec E S := by
  induction E with
  | nil => rfl
  | cons p rest ih =>
    obtain ⟨title, url⟩ := p
    rw [computeNewEpisodes, computeNewSpec, List.filterMap_cons]
    cases hs : extract_shiur_id url with
    | none => simpa [hs] using ih
    | some s =>
      have hne : s ≠ "" := extract_shiur_id_ne_empty hs
      by_cases hmem : s ∈ S
      · simpa [hs, hne, hmem] using ih
      · simpa [hs, hne, hmem] using ih

/-- C5: `extract_shiur_id` is a pure function of the URL string (being a
Lean function, it is deterministic and idempotent by construction); it is
the first-success chain query-parameter → path pattern → fallback pattern;
and it maps the spec's example URLs as stated. -/
theorem extract_shiur_id_examples_and_order :
    (∀ url : String, extract_shiur_id url = shiurIdChain url) ∧
    extract_shiur_id "https://site/lectures/details?shiurID=1159876" = some "1159876" ∧
    extract_shiur_id "https://site/lectures/lecture.cfm/1160032" = some "1160032" ∧
    extract_shiur_id "https://site/about" = none := by
  refine ⟨fun url => ?_, by decide, by decide, by decide⟩
  unfold extract_shiur_id shiurIdChain
  cases queryShiurId url <;> cases lecturesSearch url.toList <;>
    cases shiurIdFallbackSearch url.toList <;> simp [Option.orElse]

/-- C6 fails on the code: the `shiurID` query-parameter value is returned
verbatim, so a non-digit value such as `abc` becomes a non-null identifier
that is not a digit string. -/
theorem extract_shiur_id_digits_counterexample :
    extract_shiur_id "https://site/lectures/details?shiurID=abc" = some "abc" ∧
    "abc".toList.all Char.isDigit = false := by
  constructor
  · decide
  · decide

/-- C6 amended: whenever the query-parameter branch yields nothing, a
non-null identifier is a nonempty string of digits (it comes from one of
the two digit-run patterns); the query branch itself returns the raw first
parameter value, which need not be digits. -/
theorem extract_shiur_id_digits (url v : String)
    (hq : queryShiurId url = none) (h : extract_shiur_id url = some v) :
    v ≠ "" ∧ v.toList.all Char.isDigit := by
  unfold extract_shiur_id at h
  rw [hq] at h
  cases hl : lecturesSearch url.toList with
  | some d =>
    rw [hl] at h; obtain rfl := Option.some.inj h
    obtain ⟨h1, h2⟩ := lecturesSearch_some hl
    refine ⟨?_, ?_⟩
    · intro hcon; rw [List.asString_eq] at hcon; exact h1 hcon
    · rw [List.toList_asString]; exact h2
  | none =>
    rw [hl] at h
    cases hf : shiurIdFallbackSearch url.toList with
    | some d =>
      rw [hf] at h; obtain rfl := Option.some.inj h
      obtain ⟨h1, h2⟩ := shiurIdFallbackSearch_some hf
      refine ⟨?_, ?_⟩
      · intro hcon; rw [List.asString_eq] at hcon; exact h1 hcon
      · rw [List.toList_asString]; exact h2
    | none => rw [hf] at h; exact absurd h (by simp)

theorem extract_shiur_id_digits_witness :
    "1160032" ≠ "" ∧ "1160032".toList.all Char.isDigit :=
  extract_shiur_id_digits "https://site/lectures/lecture.cfm/1160032" "1160032"
    (by decide) (by decide)

/-! ## Feed reading (download_podcasts.py `extract_episode_links`, lines 133–162) -/

/-- Python `str.strip()` with no arguments: remove leading and trailing
whitespace. -/
def pyStrip (l : List Char) : List Char :=
  ((l.dropWhile isPySpace).reverse.dropWhile isPySpace).reverse

/-- One match of `re.sub(r'<!\[CDATA\[(.*?)\]\]>', r'\1', text)`: the
literal opener, then a lazy run of non-newline characters (`.` does not
match `\n` without `re.DOTALL`), then the closer; the replacement is the
captured content. -/
def cdataMatch (l : List Char) : Option (List Char × List Char) :=
  if lcharsStartsWith ("<![CDATA[".toList) l then
    let inner := l.drop 9
    match splitFirst ("]]>".toList) (inner.takeWhile (· ≠ '\n')) with
    | some (content, _) => some (content, inner.drop (content.length + 3))
    | none => none
  else none

def cdataSub (l : List Char) : List Char :=
  subAll cdataMatch l

/-- `title_elem.text or ''` followed by the CDATA-stripping substitution
and `.strip()`. -/
def processText (t : Option String) : String :=
  (pyStrip (cdataSub (t.getD "").toList)).asString

/-- An XML element as seen through `xml.etree.ElementTree`: a tag, the text
before the first child (`.text`, `None` when absent), and the child
elements in document order. -/
inductive XElem where
  | node (tag : String) (text : Option String) (children : List XElem)

def XElem.tag : XElem → String
  | .node t _ _ => t

def XElem.text : XElem → Option String
  | .node _ t _ => t

def XElem.children : XElem → List XElem
  | .node _ _ c => c

mutual
/-- `root.findall('.//item')`: all descendant elements tagged `item`, in
document order (an element precedes the matches nested inside it). -/
def xmlItems : XElem → List XElem
  | .node _ _ children => xmlItemsList children

def xmlItemsList : List XElem → List XElem
  | [] => []
  | c :: rest => (if c.tag = "item" then [c] else []) ++ xmlItems c ++ xmlItemsList rest
end

/-- `item.find(tag)`: the first direct child with the given tag. -/
def findChild (e : XElem) (t : String) : Option XElem :=
  e.children.find? fun c => c.tag == t

/-- The body of the `for item in rss_root.findall('.//item')` loop. -/
def episodeLoop : List XElem → List (String × String)
  | [] => []
  | item :: rest =>
    match findChild item "title", findChild item "link" with
    | some te, some le =>
      let title := processText te.text
      let link := processText le.text
      if link ≠ "" then (title, link) :: episodeLoop rest else episodeLoop rest
    | _, _ => episodeLoop rest

/-- `extract_episode_links(rss_root)` (lines 133–162). -/
def extract_episode_links (root : XElem) : List (String × String) :=
  episodeLoop (xmlItems root)

/-- The behaviour C7 claims, word for word: keep every item carrying a
non-empty (processed) link, pairing it with its processed title text, an
absent title element contributing the empty string. -/
def extractEpisodeLinksClaim (root : XElem) : List (String × String) :=
  (xmlItems root).filterMap fun item =>
    match findChild item "link" with
    | none => none
    | some le =>
      if processText le.text = "" then none
      else some (processText ((findChild item "title").bind XElem.text), processText le.text)

/-- The amended behaviour: an item is kept exactly when it has a `title`
child, a `link` child, and a non-empty processed link. -/
def extractEpisodeLinksAmended (root : XElem) : List (String × String) :=
  (xmlItems root).filterMap fun item =>
    match findChild item "title", findChild item "link" with
    | some te, some le =>
      if processText le.text = "" then none
      else some (processText te.text, processText le.text)
    | _, _ => none

/-- A feed whose single item has a non-empty link but no title child. -/
def c7CounterDoc : XElem :=
  .node "rss" none [.node "channel" none
    [.node "item" none [.node "link" (some "https://x/1") []]]]

/-- C7 fails on the code: an item with a non-empty `link` but no `title`
child is skipped by the `title_elem is not None and link_elem is not None`
guard, although the claim says an item is skipped only for lacking a
non-empty link. -/
theorem extract_episode_links_counterexample :
    extract_episode_links c7CounterDoc = [] ∧
    extractEpisodeLinksClaim c7CounterDoc = [("", "https://x/1")] := by
  constructor
  · decide
  · decide

theorem episodeLoop_eq_filterMap (l : List XElem) :
    episodeLoop l = l.filterMap fun item =>
      match findChild item "title", findChild item "link" with
      | some te, some le =>
        if processText le.text = "" then none
        else some (processText te.text, processText le.text)
      | _, _ => none := by
  induction l with
  | nil => rfl
  | cons item rest ih =>
    cases ht : findChild item "title" with
    | none => simp [episodeLoop, List.filterMap_cons, ht, ih]
    | some te =>
      cases hl : findChild item "link" with
      | none => simp [episodeLoop, List.filterMap_cons, ht, hl, ih]
      | some le =>
        by_cases hz : processText le.text = ""
        · simp [episodeLoop, List.filterMap_cons, ht, hl, hz, ih]
        · simp [episodeLoop, List.filterMap_cons, ht, hl, hz, ih]

/-- C7 amended: the Feed Reader returns, in document order, the processed
(CDATA-stripped, whitespace-stripped) title/link pairs of exactly those
items that possess a `title` child, a `link` child, and a non-empty
processed link. -/
theorem extract_episode_links_eq_amended (root : XElem) :
    extract_episode_links root = extractEpisodeLinksAmended root :=
  episodeLoop_eq_filterMap (xmlItems root)

/-! ## `sanitize_filename` (download_podcasts.py lines 404–460; the same
function is duplicated verbatim in test_sanitize.py) -/

/-- Python `str.replace(a, b)` for single characters. -/
def replaceChar (a b : Char) (l : List Char) : List Char :=
  l.map fun c => if c = a then b else c

/-- The quotation-mark characters replaced with `'`:
U+0022, U+201C, U+201D, U+05F4, U+201F, U+201E, U+00AB, U+00BB. -/
def quoteChars : List Char :=
  ['"', '“', '”', '״', '‟', '„', '«', '»']

def sanQuotes (l : List Char) : List Char :=
  quoteChars.foldl (fun acc q => replaceChar q '\'' acc) l

/-- Replace ASCII colon and Hebrew sof pasuq (U+05C3) with dashes. -/
def sanColons (l : List Char) : List Char :=
  replaceChar '׃' '-' (replaceChar ':' '-' l)

/-- The character class of `re.sub(r'[<>/\\|?*]', '', filename)`. -/
def winInvalidChars : List Char := ['<', '>', '/', '\\', '|', '?', '*']

def sanRemoveInvalid (l : List Char) : List Char :=
  l.filter fun c => !winInvalidChars.contains c

/-- One match of `re.sub(r'\s+', ' ', filename)`. -/
def wsRunMatch (l : List Char) : Option (List Char × List Char) :=
  match l with
  | c :: _ => if isPySpace c then some ([' '], l.dropWhile isPySpace) else none
  | [] => none

/-- One match of `re.sub(r'-+', '-', filename)`. -/
def dashRunMatch (l : List Char) : Option (List Char × List Char) :=
  match l with
  | c :: _ => if c = '-' then some (['-'], l.dropWhile (· = '-')) else none
  | [] => none

def sanCollapse (l : List Char) : List Char :=
  subAll dashRunMatch (subAll wsRunMatch l)

/-- The character set of `filename.strip('. -')`. -/
def stripSet : List Char := ['.', ' ', '-']

/-- Python `str.strip('. -')`: drop those characters from both ends. -/
def sanStrip (l : List Char) : List Char :=
  ((l.dropWhile (stripSet.contains ·)).reverse.dropWhile (stripSet.contains ·)).reverse

/-- Python's `name[:k]` slice for a possibly negative `k`. -/
def pyPrefixSlice (l : List Char) (k : Int) : List Char :=
  if 0 ≤ k then l.take k.toNat else l.take (Int.toNat (l.length + k))

/-- The over-length branch: `rsplit('.', 1)`, then
`name[:180-len(ext)-1] + '.' + ext` when a dot is present, else a plain
`[:180]` prefix. -/
def trimTo180 (l : List Char) : List Char :=
  match splitFirst ['.'] l.reverse with
  | some (extRev, nameRev) =>
    pyPrefixSlice nameRev.reverse (180 - (extRev.length : Int) - 1) ++ '.' :: extRev.reverse
  | none => l.take 180

/-- The pipeline up to and including the strip — everything before the
length trim. -/
def preTrim (s : String) : List Char :=
  sanStrip (sanCollapse (sanRemoveInvalid (sanColons (sanQuotes s.toList))))

/-- The length trim: applied only when the stripped name exceeds 180
characters. -/
def sanAfterTrim (t : List Char) : List Char :=
  if 180 < t.length then trimTo180 t else t

/-- The final `if not filename or filename == '.'` fallback. -/
def sanFinal (t2 : List Char) : String :=
  if t2 = [] ∨ t2 = ['.'] then "untitled" else t2.asString

/-- `sanitize_filename(filename)` (lines 404–460). -/
def sanitize_filename (s : String) : String :=
  sanFinal (sanAfterTrim (preTrim s))

/-- The characters the filename-safety claim forbids anywhere in the
result. -/
def badFilenameChars : List Char := ['<', '>', ':', '"', '/', '\\', '|', '?', '*']

theorem mem_replaceChar {a b c : Char} {l : List Char} (h : c ∈ replaceChar a b l) :
    c = b ∨ c ∈ l := by
  unfold replaceChar at h
  obtain ⟨x, hx, hxc⟩ := List.mem_map.mp h
  by_cases hxa : x = a
  · rw [if_pos hxa] at hxc; exact Or.inl hxc.symm
  · rw [if_neg hxa] at hxc; exact Or.inr (hxc ▸ hx)

theorem not_mem_replaceChar_self {a b : Char} {l : List Char} (hb : b ≠ a) :
    a ∉ replaceChar a b l := by
  intro h
  obtain ⟨x, hx, hxc⟩ := List.mem_map.mp h
  by_cases hxa : x = a
  · rw [if_pos hxa] at hxc; exact hb hxc
  · rw [if_neg hxa] at hxc; exact hxa hxc

theorem not_mem_replaceChar {d a b : Char} {l : List Char} (hd : d ∉ l) (hb : b ≠ d) :
    d ∉ replaceChar a b l := by
  intro h
  rcases mem_replaceChar h with h1 | h1
  · exact hb h1.symm
  · exact hd h1

theorem dq_not_mem_sanQuotes (l : List Char) : '"' ∉ sanQuotes l := by
  unfold sanQuotes quoteChars
  simp only [List.foldl_cons, List.foldl_nil]
  apply not_mem_replaceChar _ (by decide)
  apply not_mem_replaceChar _ (by decide)
  apply not_mem_replaceChar _ (by decide)
  apply not_mem_replaceChar _ (by decide)
  apply not_mem_replaceChar _ (by decide)
  apply not_mem_replaceChar _ (by decide)
  apply not_mem_replaceChar _ (by decide)
  exact not_mem_replaceChar_self (by decide)

theorem colon_not_mem_sanColons (l : List Char) : ':' ∉ sanColons l :=
  not_mem_replaceChar (not_mem_replaceChar_self (by decide)) (by decide)

theorem dq_not_mem_sanColons {l : List Char} (h : '"' ∉ l) : '"' ∉ sanColons l :=
  not_mem_replaceChar (not_mem_replaceChar h (by decide)) (by decide)

theorem stage3_good (l : List Char) :
    ∀ c ∈ sanRemoveInvalid (sanColons (sanQuotes l)), c ∉ badFilenameChars := by
  intro c hc hbad
  obtain ⟨hcin, hcfil⟩ := List.mem_filter.mp hc
  simp only [badFilenameChars, List.mem_cons, List.not_mem_nil, or_false] at hbad
  obtain rfl | rfl | rfl | rfl | hb5 := hbad
  · exact absurd hcfil (by decide)
  · exact absurd hcfil (by decide)
  · exact colon_not_mem_sanColons _ hcin
  · exact dq_not_mem_sanColons (dq_not_mem_sanQuotes l) hcin
  obtain rfl | rfl | rfl | rfl | rfl := hb5
  all_goals exact absurd hcfil (by decide)

theorem sanCollapse_good {l : List Char} (hl : ∀ c ∈ l, c ∉ badFilenameChars) :
    ∀ c ∈ sanCollapse l, c ∉ badFilenameChars := by
  unfold sanCollapse
  apply subAll_all ?hdash (subAll_all ?hws hl)
  case hws =>
    intro l' repl rem h
    unfold wsRunMatch at h
    split at h
    · split at h
      · obtain ⟨rfl, rfl⟩ := Prod.mk.injEq .. ▸ Option.some.inj h
        refine ⟨by decide, ?_⟩
        exact fun d hd => (List.dropWhile_sublist _).subset hd
      · exact absurd h (by simp)
    · exact absurd h (by simp)
  case hdash =>
    intro l' repl rem h
    unfold dashRunMatch at h
    split at h
    · split at h
      · obtain ⟨rfl, rfl⟩ := Prod.mk.injEq .. ▸ Option.some.inj h
        refine ⟨by decide, ?_⟩
        exact fun d hd => (List.dropWhile_sublist _).subset hd
      · exact absurd h (by simp)
    · exact absurd h (by simp)

theorem sanStrip_subset {l : List Char} : ∀ c ∈ sanStrip l, c ∈ l := by
  intro c hc
  unfold sanStrip at hc
  rw [List.mem_reverse] at hc
  have h1 := (List.dropWhile_sublist _).subset hc
  rw [List.mem_reverse] at h1
  exact (List.dropWhile_sublist _).subset h1

theorem splitFirst_subset {pat : List Char} : ∀ {l pre post : List Char},
    splitFirst pat l = some (pre, post) → (∀ c ∈ pre, c ∈ l) ∧ (∀ c ∈ post, c ∈ l) := by
  intro l
  induction l with
  | nil =>
    intro pre post h
    unfold splitFirst at h
    split at h
    · obtain ⟨rfl, rfl⟩ := Prod.mk.injEq .. ▸ Option.some.inj h
      exact ⟨by simp, by simp⟩
    · exact absurd h (by simp)
  | cons c rest ih =>
    intro pre post h
    unfold splitFirst at h
    split at h
    · obtain ⟨rfl, rfl⟩ := Prod.mk.injEq .. ▸ Option.some.inj h
      exact ⟨by simp, fun d hd => List.drop_subset _ _ hd⟩
    · cases hs : splitFirst pat rest with
      | some p =>
        obtain ⟨pre', post'⟩ := p
        rw [hs] at h
        obtain ⟨rfl, rfl⟩ := Prod.mk.injEq .. ▸ Option.some.inj h
        obtain ⟨h1, h2⟩ := ih hs
        constructor
        · intro d hd
          rcases List.mem_cons.mp hd with rfl | hd
          · exact List.mem_cons_self _ _
          · exact List.mem_cons_of_mem _ (h1 d hd)
        · exact fun d hd => List.mem_cons_of_mem _ (h2 d hd)
      | none => rw [hs] at h; exact absurd h (by simp)

theorem trimTo180_mem {l : List Char} : ∀ c ∈ trimTo180 l, c = '.' ∨ c ∈ l := by
  intro c hc
  unfold trimTo180 at hc
  cases hsp : splitFirst ['.'] l.reverse with
  | none => rw [hsp] at hc; exact Or.inr (List.take_subset _ _ hc)
  | some p =>
    obtain ⟨extRev, nameRev⟩ := p
    rw [hsp] at hc
    rcases List.mem_append.mp hc with hc | hc
    · refine Or.inr ?_
      have h1 : c ∈ nameRev.reverse := by
        unfold pyPrefixSlice at hc
        split at hc
        · exact List.take_subset _ _ hc
        · exact List.take_subset _ _ hc
      rw [List.mem_reverse] at h1
      have := (splitFirst_subset hsp).2 c h1
      rwa [List.mem_reverse] at this
    · rcases List.mem_cons.mp hc with rfl | hc
      · exact Or.inl rfl
      · refine Or.inr ?_
        rw [List.mem_reverse] at hc
        have := (splitFirst_subset hsp).1 c hc
        rwa [List.mem_reverse] at this

theorem preTrim_good (s : String) : ∀ c ∈ preTrim s, c ∉ badFilenameChars := by
  intro c hc
  exact sanCollapse_good (stage3_good s.toList) c (sanStrip_subset c hc)

theorem sanitize_filename_no_bad (s : String) :
    ∀ c ∈ (sanitize_filename s).toList, c ∉ badFilenameChars := by
  intro c hc
  unfold sanitize_filename sanFinal at hc
  have hafter : ∀ d ∈ sanAfterTrim (preTrim s), d ∉ badFilenameChars := by
    intro d hd
    unfold sanAfterTrim at hd
    split at hd
    · rcases trimTo180_mem d hd with rfl | hd
      · decide
      · exact preTrim_good s d hd
    · exact preTrim_good s d hd
  split at hc
  · have hch : c ∈ ['u', 'n', 't', 'i', 't', 'l', 'e', 'd'] := hc
    simp only [List.mem_cons, List.not_mem_nil, or_false] at hch
    obtain rfl | rfl | rfl | hch4 := hch
    · decide
    · decide
    · decide
    obtain rfl | rfl | rfl | rfl | rfl := hch4 <;> decide
  · rw [List.toList_asString] at hc
    exact hafter c hc

theorem head?_dropWhile {p : Char → Bool} : ∀ {l : List Char} {c : Char},
    (l.dropWhile p).head? = some c → p c = false := by
  intro l
  induction l with
  | nil => intro c h; simp at h
  | cons a rest ih =>
    intro c h
    by_cases hpa : p a
    · rw [List.dropWhile_cons_of_pos hpa] at h; exact ih h
    · rw [List.dropWhile_cons_of_neg hpa] at h
      rw [List.head?_cons] at h
      obtain rfl := Option.some.inj h
      exact Bool.not_eq_true _ ▸ hpa

theorem getLast?_dropWhile {p : Char → Bool} : ∀ {l : List Char},
    l.dropWhile p ≠ [] → (l.dropWhile p).getLast? = l.getLast? := by
  intro l
  induction l with
  | nil => intro h; simp at h
  | cons a rest ih =>
    intro h
    by_cases hpa : p a
    · rw [List.dropWhile_cons_of_pos hpa] at h ⊢
      rw [ih h]
      have hrest : rest ≠ [] := by
        intro hr; rw [hr] at h; simp at h
      obtain ⟨b, t, rfl⟩ := List.exists_cons_of_ne_nil hrest
      rw [List.getLast?_cons_cons]
    · rw [List.dropWhile_cons_of_neg hpa]

theorem sanStrip_head? {l : List Char} {c : Char} (h : (sanStrip l).head? = some c) :
    stripSet.contains c = false := by
  unfold sanStrip at h
  rw [List.head?_reverse] at h
  have hne : (l.dropWhile (stripSet.contains ·)).reverse.dropWhile (stripSet.contains ·) ≠ [] := by
    intro h0; rw [h0] at h; simp at h
  rw [getLast?_dropWhile hne, List.getLast?_reverse] at h
  exact head?_dropWhile h

theorem sanStrip_getLast? {l : List Char} {c : Char} (h : (sanStrip l).getLast? = some c) :
    stripSet.contains c = false := by
  unfold sanStrip at h
  rw [List.getLast?_reverse] at h
  exact head?_dropWhile h

set_option maxRecDepth 100000 in
/-- C9 fails on the code: when the text after the last dot is long, the
length trim computes `name[:180-len(ext)-1]` with a non-positive bound, so
the result keeps the whole "extension", starts with a period, and exceeds
180 characters.  For the 192-character input `"a." + "b"*190` the result is
`"." + "b"*190`: 191 characters with a leading period. -/
theorem sanitize_filename_counterexample :
    (sanitize_filename ("a." ++ (List.replicate 190 'b').asString)).length = 191 ∧
    (sanitize_filename ("a." ++ (List.replicate 190 'b').asString)).toList.head? = some '.' := by
  constructor
  · decide
  · decide

/-- C9 amended: the sanitized name never contains any of the forbidden
characters; and whenever the pipeline's pre-trim result fits in 180
characters (so the length trim is skipped), the result is also at most 180
characters with no leading or trailing space, period, or dash.  (When the
trim does run it can produce a leading period, a trailing space or dash —
from a bare `[:180]` cut — and results longer than 180.) -/
theorem sanitize_filename_safety (s : String) :
    (∀ c ∈ (sanitize_filename s).toList, c ∉ badFilenameChars) ∧
    ((preTrim s).length ≤ 180 →
      (sanitize_filename s).length ≤ 180 ∧
      (∀ c, (sanitize_filename s).toList.head? = some c → stripSet.contains c = false) ∧
      (∀ c, (sanitize_filename s).toList.getLast? = some c → stripSet.contains c = false)) := by
  refine ⟨sanitize_filename_no_bad s, fun hlen => ?_⟩
  have hat : sanAfterTrim (preTrim s) = preTrim s := by
    unfold sanAfterTrim
    rw [if_neg (by omega)]
  unfold sanitize_filename
  rw [hat]
  unfold sanFinal
  split
  · refine ⟨by decide, ?_, ?_⟩
    · intro c hc
      have : some 'u' = some c := hc
      obtain rfl := Option.some.inj this
      decide
    · intro c hc
      have : some 'd' = some c := hc
      obtain rfl := Option.some.inj this
      decide
  · refine ⟨?_, ?_, ?_⟩
    · rw [List.length_asString]; exact hlen
    · intro c hc
      rw [List.toList_asString] at hc
      exact sanStrip_head? hc
    · intro c hc
      rw [List.toList_asString] at hc
      exact sanStrip_getLast? hc

theorem sanitize_filename_safety_witness :
    (sanitize_filename "hello there.mp3").length ≤ 180 ∧
    (∀ c, (sanitize_filename "hello there.mp3").toList.head? = some c →
      stripSet.contains c = false) ∧
    (∀ c, (sanitize_filename "hello there.mp3").toList.getLast? = some c →
      stripSet.contains c = false) :=
  (sanitize_filename_safety "hello there.mp3").2 (by decide)

/-! ## JSON values

Python objects produced by `json.loads` / consumed by `json.dump`: `None`,
booleans, integers, floats, strings, lists, and insertion-ordered dicts.
Floats are carried as their source lexeme together with their zero-ness
(enough for truthiness); float arithmetic and Python float `repr` are
outside the model. -/

inductive JVal where
  | jnull
  | jbool (b : Bool)
  | jnum (i : Int)
  | jnumf (raw : String) (isZero : Bool)
  | jstr (s : String)
  | jarr (items : List JVal)
  | jobj (fields : List (String × JVal))

mutual
def JVal.decEq : (a b : JVal) → Decidable (a = b)
  | .jnull, .jnull => isTrue rfl
  | .jbool x, .jbool y =>
    match Bool.decEq x y with
    | isTrue h => isTrue (h ▸ rfl)
    | isFalse h => isFalse fun hc => h (by injection hc)
  | .jnum x, .jnum y =>
    match Int.decEq x y with
    | isTrue h => isTrue (h ▸ rfl)
    | isFalse h => isFalse fun hc => h (by injection hc)
  | .jnumf r1 z1, .jnumf r2 z2 =>
    match String.decEq r1 r2, Bool.decEq z1 z2 with
    | isTrue h1, isTrue h2 => isTrue (h1 ▸ h2 ▸ rfl)
    | isFalse h1, _ => isFalse fun hc => h1 (by injection hc)
    | _, isFalse h2 => isFalse fun hc => h2 (by injection hc)
  | .jstr x, .jstr y =>
    match String.decEq x y with
    | isTrue h => isTrue (h ▸ rfl)
    | isFalse h => isFalse fun hc => h (by injection hc)
  | .jarr xs, .jarr ys =>
    match JVal.decEqList xs ys with
    | isTrue h => isTrue (h ▸ rfl)
    | isFalse h => isFalse fun hc => h (by injection hc)
  | .jobj xs, .jobj ys =>
    match JVal.decEqFields xs ys with
    | isTrue h => isTrue (h ▸ rfl)
    | isFalse h => isFalse fun hc => h (by injection hc)
  | .jnull, .jbool _ => isFalse (by intro hc; exact JVal.noConfusion hc)
  | .jnull, .jnum _ => isFalse (by intro hc; exact JVal.noConfusion hc)
  | .jnull, .jnumf _ _ => isFalse (by intro hc; exact JVal.noConfusion hc)
  | .jnull, .jstr _ => isFalse (by intro hc; exact JVal.noConfusion hc)
  | .jnull, .jarr _ => isFalse (by intro hc; exact JVal.noConfusion hc)
  | .jnull, .jobj _ => isFalse (by intro hc; exact JVal.noConfusion hc)
  | .jbool _, .jnull => isFalse (by intro hc; exact JVal.noConfusion hc)
  | .jbool _, .jnum _ => isFalse (by intro hc; exact JVal.noConfusion hc)
  | .jbool _, .jnumf _ _ => isFalse (by intro hc; exact JVal.noConfusion hc)
  | .jbool _, .jstr _ => isFalse (by intro hc; exact JVal.noConfusion hc)
  | .jbool _, .jarr _ => isFalse (by intro hc; exact JVal.noConfusion hc)
  | .jbool _, .jobj _ => isFalse (by intro hc; exact JVal.noConfusion hc)
  | .jnum _, .jnull => isFalse (by intro hc; exact JVal.noConfusion hc)
  | .jnum _, .jbool _ => isFalse (by intro hc; exact JVal.noConfusion hc)
  | .jnum _, .jnumf _ _ => isFalse (by intro hc; exact JVal.noConfusion hc)
  | .jnum _, .jstr _ => isFalse (by intro hc; exact JVal.noConfusion hc)
  | .jnum _, .jarr _ => isFalse (by intro hc; exact JVal.noConfusion hc)
  | .jnum _, .jobj _ => isFalse (by intro hc; exact JVal.noConfusion hc)
  | .jnumf _ _, .jnull => isFalse (by intro hc; exact JVal.noConfusion hc)
  | .jnumf _ _, .jbool _ => isFalse (by intro hc; exact JVal.noConfusion hc)
  | .jnumf _ _, .jnum _ => isFalse (by intro hc; exact JVal.noConfusion hc)
  | .jnumf _ _, .jstr _ => isFalse (by intro hc; exact JVal.noConfusion hc)
  | .jnumf _ _, .jarr _ => isFalse (by intro hc; exact JVal.noConfusion hc)
  | .jnumf _ _, .jobj _ => isFalse (by intro hc; exact JVal.noConfusion hc)
  | .jstr _, .jnull => isFalse (by intro hc; exact JVal.noConfusion hc)
  | .jstr _, .jbool _ => isFalse (by intro hc; exact JVal.noConfusion hc)
  | .jstr _, .jnum _ => isFalse (by intro hc; exact JVal.noConfusion hc)
  | .jstr _, .jnumf _ _ => isFalse (by intro hc; exact JVal.noConfusion hc)
  | .jstr _, .jarr _ => isFalse (by intro hc; exact JVal.noConfusion hc)
  | .jstr _, .jobj _ => isFalse (by intro hc; exact JVal.noConfusion hc)
  | .jarr _, .jnull => isFalse (by intro hc; exact JVal.noConfusion hc)
  | .jarr _, .jbool _ => isFalse (by intro hc; exact JVal.noConfusion hc)
  | .jarr _, .jnum _ => isFalse (by intro hc; exact JVal.noConfusion hc)
  | .jarr _, .jnumf _ _ => isFalse (by intro hc; exact JVal.noConfusion hc)
  | .jarr _, .jstr _ => isFalse (by intro hc; exact JVal.noConfusion hc)
  | .jarr _, .jobj _ => isFalse (by intro hc; exact JVal.noConfusion hc)
  | .jobj _, .jnull => isFalse (by intro hc; exact JVal.noConfusion hc)
  | .jobj _, .jbool _ => isFalse (by intro hc; exact JVal.noConfusion hc)
  | .jobj _, .jnum _ => isFalse (by intro hc; exact JVal.noConfusion hc)
  | .jobj _, .jnumf _ _ => isFalse (by intro hc; exact JVal.noConfusion hc)
  | .jobj _, .jstr _ => isFalse (by intro hc; exact JVal.noConfusion hc)
  | .jobj _, .jarr _ => isFalse (by intro hc; exact JVal.noConfusion hc)

def JVal.decEqList : (a b : List JVal) → Decidable (a = b)
  | [], [] => isTrue rfl
  | x :: xs, y :: ys =>
    match JVal.decEq x y, JVal.decEqList xs ys with
    | isTrue h1, isTrue h2 => isTrue (h1 ▸ h2 ▸ rfl)
    | isFalse h1, _ => isFalse fun hc => h1 (by injection hc)
    | _, isFalse h2 => isFalse fun hc => h2 (by injection hc)
  | [], _ :: _ => isFalse (by intro hc; exact List.noConfusion hc)
  | _ :: _, [] => isFalse (by intro hc; exact List.noConfusion hc)

def JVal.decEqFields : (a b : List (String × JVal)) → Decidable (a = b)
  | [], [] => isTrue rfl
  | (k1, v1) :: xs, (k2, v2) :: ys =>
    match String.decEq k1 k2, JVal.decEq v1 v2, JVal.decEqFields xs ys with
    | isTrue h1, isTrue h2, isTrue h3 => isTrue (h1 ▸ h2 ▸ h3 ▸ rfl)
    | isFalse h1, _, _ => isFalse fun hc => by
        injection hc with hhead htail
        exact h1 (congrArg Prod.fst hhead)
    | _, isFalse h2, _ => isFalse fun hc => by
        injection hc with hhead htail
        exact h2 (congrArg Prod.snd hhead)
    | _, _, isFalse h3 => isFalse fun hc => by
        injection hc with hhead htail
        exact h3 htail
  | [], _ :: _ => isFalse (by intro hc; exact List.noConfusion hc)
  | _ :: _, [] => isFalse (by intro hc; exact List.noConfusion hc)
end

instance : DecidableEq JVal := JVal.decEq

/-- A Python dict with string keys, in insertion order (keys unique by
construction of every producer below). -/
abbrev PyDict := List (String × JVal)

/-- `d[k] = v`: update in place if the key exists, else append. -/
def pyDictAssign (d : PyDict) (k : String) (v : JVal) : PyDict :=
  if d.any (fun p => p.1 == k) then
    d.map fun p => if p.1 == k then (k, v) else p
  else d ++ [(k, v)]

/-- `d.setdefault(k, v)`. -/
def pyDictSetdefault (d : PyDict) (k : String) (v : JVal) : PyDict :=
  if d.any (fun p => p.1 == k) then d else d ++ [(k, v)]

/-- `d.get(k)`: `None` (here `jnull`, which Python's `json` maps to `None`
anyway) when the key is absent. -/
def dictGet (d : PyDict) (k : String) : JVal :=
  match d.find? (fun p => p.1 == k) with
  | some p => p.2
  | none => .jnull

/-- `k in d` / `d.get(k) is not None` distinction: the raw lookup. -/
def dictGetOpt (d : PyDict) (k : String) : Option JVal :=
  (d.find? (fun p => p.1 == k)).map (·.2)

/-- Python truthiness of a value. -/
def pyTruthy : JVal → Bool
  | .jnull => false
  | .jbool b => b
  | .jnum i => i != 0
  | .jnumf _ isZero => !isZero
  | .jstr s => !(s == "")
  | .jarr items => !items.isEmpty
  | .jobj fields => !fields.isEmpty

/-- Python `a or b`. -/
def pyOr (a b : JVal) : JVal :=
  if pyTruthy a then a else b

theorem pyTruthy_pyOr {a b : JVal} :
    pyTruthy (pyOr a b) = (pyTruthy a || pyTruthy b) := by
  unfold pyOr
  by_cases h : pyTruthy a
  · rw [if_pos h, h]; rfl
  · rw [if_neg h]
    have : pyTruthy a = false := by
      cases hh : pyTruthy a
      · rfl
      · exact absurd hh h
    rw [this, Bool.false_or]

theorem pyTruthy_ne_jnull {a : JVal} (h : pyTruthy a = true) : a ≠ .jnull := by
  intro hc; rw [hc] at h; exact Bool.false_ne_true h

/-- Python `str()` of a value.  Exact for `None`, booleans, integers and
strings (the cases the program exercises); float text is approximated by
the source lexeme and list/dict text by a placeholder, as Python `repr`
of floats and containers is outside the model. -/
def pyStr : JVal → String
  | .jnull => "None"
  | .jbool true => "True"
  | .jbool false => "False"
  | .jnum i => toString i
  | .jnumf raw _ => raw
  | .jstr s => s
  | .jarr _ => "[...]"
  | .jobj _ => "\x7b...\x7d"

/-! ## The local tracking record
(`save_downloaded_shiurim`, lines 52–67; `load_downloaded_shiurim`,
lines 31–49)

File I/O and `json.dump`/`json.load` text serialization are modelled at the
JSON-value level: `save` produces the `JVal` the file would contain, `load`
consumes `some` such value — `none` standing for a missing file or one the
`except` branch rejects (unreadable or unparseable), both of which yield
the empty set. -/

structure PyTime where
  year : Nat
  month : Nat
  day : Nat
  hour : Nat
  minute : Nat
  second : Nat

def digitChar (n : Nat) : Char :=
  match n with
  | 0 => '0' | 1 => '1' | 2 => '2' | 3 => '3' | 4 => '4'
  | 5 => '5' | 6 => '6' | 7 => '7' | 8 => '8' | _ => '9'

/-- Decimal digits of `n`, most significant first; the fuel argument
(`n + 1` at the top level) bounds the recursion depth. -/
def natDigitsAux : Nat → Nat → List Char
  | 0, _ => []
  | fuel + 1, n => if n < 10 then [digitChar n] else natDigitsAux fuel (n / 10) ++ [digitChar (n % 10)]

def natDecimal (n : Nat) : List Char :=
  natDigitsAux (n + 1) n

/-- Zero-pad a numeral to the given width (C `strftime` zero padding). -/
def padNat (w : Nat) (n : Nat) : String :=
  (List.replicate (w - (natDecimal n).length) '0' ++ natDecimal n).asString

/-- `time.strftime('%Y-%m-%d %H:%M:%S')` on the given broken-down time. -/
def formatTimestamp (t : PyTime) : String :=
  padNat 4 t.year ++ "-" ++ padNat 2 t.month ++ "-" ++ padNat 2 t.day ++ " " ++
  padNat 2 t.hour ++ ":" ++ padNat 2 t.minute ++ ":" ++ padNat 2 t.second

/-- `save_downloaded_shiurim`: the JSON document written —
`{'downloaded_shiurim': sorted(list(downloaded_shiurim)), 'last_updated':
time.strftime('%Y-%m-%d %H:%M:%S')}`.  Python sorts strings by code point,
which is exactly Lean's `String` linear order. -/
def save_downloaded_shiurim (shiurim : Finset String) (now : PyTime) : JVal :=
  .jobj [("downloaded_shiurim", .jarr ((shiurim.sort (· ≤ ·)).map .jstr)),
         ("last_updated", .jstr (formatTimestamp now))]

/-- `set(x)` for the JSON values Python would pass to `set(...)`:
a list gives the set of its elements, a string the set of its characters,
a dict the set of its keys; `set()` of anything else raises `TypeError`,
which the surrounding `except` turns into the empty set. -/
def pySetOf : JVal → Finset JVal
  | .jarr items => items.toFinset
  | .jstr s => (s.toList.map fun c => JVal.jstr (String.mk [c])).toFinset
  | .jobj fields => (fields.map fun p => JVal.jstr p.1).toFinset
  | _ => ∅

/-- `load_downloaded_shiurim`: a missing or rejected file gives the empty
set; otherwise `set(data.get('downloaded_shiurim', []))` (a non-dict top
level makes `data.get` raise, which the `except` also turns into the empty
set). -/
def load_downloaded_shiurim (file : Option JVal) : Finset JVal :=
  match file with
  | none => ∅
  | some (.jobj fields) =>
    match dictGetOpt fields "downloaded_shiurim" with
    | some v => pySetOf v
    | none => pySetOf (.jarr [])
  | some _ => ∅

theorem digitChar_isDigit (n : Nat) : (digitChar n).isDigit := by
  unfold digitChar
  split <;> decide

theorem natDigitsAux_all_digit : ∀ fuel n, ∀ c ∈ natDigitsAux fuel n, c.isDigit := by
  intro fuel
  induction fuel with
  | zero => intro n c hc; simp [natDigitsAux] at hc
  | succ m ih =>
    intro n c hc
    rw [natDigitsAux] at hc
    split at hc
    · rcases List.mem_cons.mp hc with rfl | hc
      · exact digitChar_isDigit n
      · simp at hc
    · rcases List.mem_append.mp hc with hc | hc
      · exact ih _ c hc
      · rcases List.mem_cons.mp hc with rfl | hc
        · exact digitChar_isDigit _
        · simp at hc

theorem natDigitsAux_length : ∀ fuel n k, n < 10 ^ k → 0 < k →
    (natDigitsAux fuel n).length ≤ k := by
  intro fuel
  induction fuel with
  | zero => intro n k _ _; simp [natDigitsAux]
  | succ m ih =>
    intro n k hn hk
    rw [natDigitsAux]
    split
    · simpa using hk
    · next hge =>
      have hk2 : 2 ≤ k := by
        by_contra hcon
        have hk1 : k = 1 := by omega
        rw [hk1] at hn
        simp at hn
        omega
      have hdiv : n / 10 < 10 ^ (k - 1) := by
        rw [Nat.div_lt_iff_lt_mul (by norm_num : 0 < 10)]
        calc n < 10 ^ k := hn
        _ = 10 ^ (k - 1) * 10 := by
          rw [← pow_succ]
          congr 1
          omega
      have := ih (n / 10) (k - 1) hdiv (by omega)
      simp only [List.length_append, List.length_cons, List.length_nil]
      omega

theorem natDecimal_all_digit (n : Nat) : ∀ c ∈ natDecimal n, c.isDigit :=
  natDigitsAux_all_digit _ n

theorem natDecimal_length {n k : Nat} (hn : n < 10 ^ k) (hk : 0 < k) :
    (natDecimal n).length ≤ k :=
  natDigitsAux_length _ n k hn hk

theorem padNat_spec {w n k : Nat} (hn : n < 10 ^ k) (hk : 0 < k) (hkw : k ≤ w) :
    (padNat w n).toList.length = w ∧ ∀ c ∈ (padNat w n).toList, c.isDigit := by
  unfold padNat
  rw [List.toList_asString]
  constructor
  · have hlen := natDecimal_length hn hk
    simp only [List.length_append, List.length_replicate]
    omega
  · intro c hc
    rcases List.mem_append.mp hc with hc | hc
    · rw [List.eq_of_mem_replicate hc]; decide
    · exact natDecimal_all_digit n c hc

theorem list_toFinset_map {α β : Type} [DecidableEq α] [DecidableEq β]
    (l : List α) (f : α → β) : (l.map f).toFinset = l.toFinset.image f := by
  induction l with
  | nil => simp
  | cons a rest ih => simp [ih]

/-- C8: writing a set of identifiers and reading it back yields the same
set (as JSON strings); the written document stores exactly the
ascending-sorted identifier list under `downloaded_shiurim` together with a
`last_updated` string of the shape `YYYY-MM-DD HH:MM:SS` (four digits, two
digits elsewhere, with the literal separators), provided the clock fields
are in the ranges `localtime` guarantees. -/
theorem tracking_record_roundtrip (s : Finset String) (t : PyTime)
    (ht : t.year < 10000 ∧ t.month < 100 ∧ t.day < 100 ∧
          t.hour < 100 ∧ t.minute < 100 ∧ t.second < 100) :
    load_downloaded_shiurim (some (save_downloaded_shiurim s t)) = s.image .jstr ∧
    (∃ lst : List String,
      save_downloaded_shiurim s t =
        .jobj [("downloaded_shiurim", .jarr (lst.map .jstr)),
               ("last_updated", .jstr (formatTimestamp t))] ∧
      lst.Sorted (· ≤ ·) ∧ lst.toFinset = s) ∧
    (∃ y mo d h mi sec : List Char,
      (formatTimestamp t).toList =
        y ++ '-' :: mo ++ '-' :: d ++ ' ' :: h ++ ':' :: mi ++ ':' :: sec ∧
      y.length = 4 ∧ mo.length = 2 ∧ d.length = 2 ∧ h.length = 2 ∧
      mi.length = 2 ∧ sec.length = 2 ∧
      (∀ c, (c ∈ y ∨ c ∈ mo ∨ c ∈ d ∨ c ∈ h ∨ c ∈ mi ∨ c ∈ sec) → c.isDigit)) := by
  obtain ⟨hy, hmo, hd, hh, hmi, hs⟩ := ht
  refine ⟨?_, ?_, ?_⟩
  · show pySetOf (.jarr ((s.sort (· ≤ ·)).map .jstr)) = s.image .jstr
    show ((s.sort (· ≤ ·)).map JVal.jstr).toFinset = s.image .jstr
    rw [list_toFinset_map, Finset.sort_toFinset]
  · exact ⟨s.sort (· ≤ ·), rfl, Finset.sort_sorted _ _, Finset.sort_toFinset _ _⟩
  · obtain ⟨hylen, hydig⟩ := padNat_spec (k := 4) hy (by norm_num) (le_refl 4)
    obtain ⟨hmolen, hmodig⟩ := padNat_spec (k := 2) hmo (by norm_num) (le_refl 2)
    obtain ⟨hdlen, hddig⟩ := padNat_spec (k := 2) hd (by norm_num) (le_refl 2)
    obtain ⟨hhlen, hhdig⟩ := padNat_spec (k := 2) hh (by norm_num) (le_refl 2)
    obtain ⟨hmilen, hmidig⟩ := padNat_spec (k := 2) hmi (by norm_num) (le_refl 2)
    obtain ⟨hslen, hsdig⟩ := padNat_spec (k := 2) hs (by norm_num) (le_refl 2)
    refine ⟨(padNat 4 t.year).toList, (padNat 2 t.month).toList, (padNat 2 t.day).toList,
      (padNat 2 t.hour).toList, (padNat 2 t.minute).toList, (padNat 2 t.second).toList,
      ?_, hylen, hmolen, hdlen, hhlen, hmilen, hslen, ?_⟩
    · show (formatTimestamp t).data = _
      unfold formatTimestamp
      simp only [String.data_append, show ("-").data = ['-'] from rfl,
        show (" ").data = [' '] from rfl, show (":").data = [':'] from rfl,
        List.append_assoc, List.singleton_append]
      rfl
    · intro c hc
      rcases hc with hc | hc | hc | hc | hc | hc
      · exact hydig c hc
      · exact hmodig c hc
      · exact hddig c hc
      · exact hhdig c hc
      · exact hmidig c hc
      · exact hsdig c hc

theorem tracking_record_roundtrip_witness :
    load_downloaded_shiurim (some (save_downloaded_shiurim {"1160032", "10", "2"}
      ⟨2025, 1, 2, 3, 4, 5⟩)) = ({"1160032", "10", "2"} : Finset String).image .jstr :=
  (tracking_record_roundtrip {"1160032", "10", "2"} ⟨2025, 1, 2, 3, 4, 5⟩
    (by norm_num)).1

/-! ## A JSON parser (`json.loads`)

Faithful to Python's strict-mode grammar for the inputs the program meets:
objects (later duplicate keys overwrite, first position kept — `dict`
semantics), arrays, strings with the standard escapes and `\uXXXX`
(surrogate pairs combined; a lone surrogate, which Python would keep,
is replaced by U+FFFD since Lean characters are scalar values), integers,
floats (kept as lexemes, see `JVal.jnumf`), `true`/`false`/`null`, and the
`NaN`/`Infinity` constants Python accepts.  Unescaped control characters
are rejected as in strict mode.  The fuel argument (`length + 1` at top
level) bounds recursion; it cannot run out because every recursive call
consumes at least one character first. -/

def jsonWs (c : Char) : Bool :=
  c = ' ' || c = '\t' || c = '\n' || c = '\r'

def hexVal4 (a b c d : Char) : Option Nat :=
  match hexDigitVal a, hexDigitVal b, hexDigitVal c, hexDigitVal d with
  | some x1, some x2, some x3, some x4 => some (4096 * x1 + 256 * x2 + 16 * x3 + x4)
  | _, _, _, _ => none

def jsonEscChar (c : Char) : Option Char :=
  if c = '"' || c = '\\' || c = '/' then some c
  else if c = 'n' then some '\n'
  else if c = 't' then some '\t'
  else if c = 'r' then some '\r'
  else if c = 'b' then some '\x08'
  else if c = 'f' then some '\x0c'
  else none

/-- Parse the body of a JSON string (after the opening quote), returning
the decoded characters and the text after the closing quote.  The fuel
argument (`length + 1` from `parseJString`) bounds the recursion; every
step consumes at least one character. -/
def consDecoded (c : Char) : Option (List Char × List Char) → Option (List Char × List Char)
  | some (s, r) => some (c :: s, r)
  | none => none

def parseJStringBody : Nat → List Char → Option (List Char × List Char)
  | 0, _ => none
  | _ + 1, [] => none
  | _ + 1, '"' :: rest => some ([], rest)
  | fuel + 1, '\\' :: 'u' :: h1 :: h2 :: h3 :: h4 :: rest =>
    match hexVal4 h1 h2 h3 h4 with
    | none => none
    | some n =>
      if 0xD800 ≤ n && n ≤ 0xDBFF then
        match rest with
        | '\\' :: 'u' :: k1 :: k2 :: k3 :: k4 :: rest2 =>
          match hexVal4 k1 k2 k3 k4 with
          | some m =>
            if 0xDC00 ≤ m && m ≤ 0xDFFF then
              consDecoded (Char.ofNat (0x10000 + (n - 0xD800) * 0x400 + (m - 0xDC00)))
                (parseJStringBody fuel rest2)
            else consDecoded (Char.ofNat 0xFFFD) (parseJStringBody fuel rest)
          | none => consDecoded (Char.ofNat 0xFFFD) (parseJStringBody fuel rest)
        | _ => consDecoded (Char.ofNat 0xFFFD) (parseJStringBody fuel rest)
      else if 0xDC00 ≤ n && n ≤ 0xDFFF then
        consDecoded (Char.ofNat 0xFFFD) (parseJStringBody fuel rest)
      else consDecoded (Char.ofNat n) (parseJStringBody fuel rest)
  | fuel + 1, '\\' :: e :: rest =>
    match jsonEscChar e with
    | none => none
    | some c => consDecoded c (parseJStringBody fuel rest)
  | fuel + 1, c :: rest =>
    if c.toNat < 0x20 then none
    else consDecoded c (parseJStringBody fuel rest)

def parseJString (l : List Char) : Option (List Char × List Char) :=
  parseJStringBody (l.length + 1) l

def digitsToNat (ds : List Char) : Nat :=
  ds.foldl (fun acc c => 10 * acc + (c.toNat - 48)) 0

/-- Parse a JSON number token (the `NUMBER_RE` grammar):
`-? (0 | [1-9][0-9]*) (\.[0-9]+)? ([eE][-+]?[0-9]+)?`.  An integer lexeme
becomes an `Int`; anything with a fraction or exponent stays a float
lexeme. -/
def parseJNumber (l : List Char) : Option (JVal × List Char) :=
  let neg : Bool := l.head? == some '-'
  let l1 := if neg then l.tail else l
  match l1 with
  | c :: _ =>
    if c.isDigit then
      let intDigits := if c = '0' then ['0'] else l1.takeWhile Char.isDigit
      let l2 := l1.drop intDigits.length
      let (fracDigits, l3) :=
        match l2 with
        | '.' :: d :: _ =>
          if d.isDigit then
            let ds := (l2.drop 1).takeWhile Char.isDigit
            (ds, l2.drop (1 + ds.length))
          else ([], l2)
        | _ => ([], l2)
      let hasFrac := !fracDigits.isEmpty
      let (expChars, l4) :=
        match l3 with
        | e :: r =>
          if e = 'e' || e = 'E' then
            let (sgn, r2) := match r with
              | s :: r' => if s = '+' || s = '-' then ([s], r') else ([], r)
              | [] => ([], r)
            let ds := r2.takeWhile Char.isDigit
            if ds.isEmpty then ([], l3)
            else (e :: sgn ++ ds, r2.drop ds.length)
          else ([], l3)
        | [] => ([], l3)
      let hasExp := !expChars.isEmpty
      if hasFrac || hasExp then
        let raw := (if neg then ['-'] else []) ++ intDigits ++
          (if hasFrac then '.' :: fracDigits else []) ++ expChars
        let isZero := intDigits.all (· = '0') && fracDigits.all (· = '0')
        some (.jnumf raw.asString isZero, l4)
      else
        let v : Int := Int.ofNat (digitsToNat intDigits)
        some (.jnum (if neg then -v else v), l2)
    else none
  | [] => none

mutual
def parseJValue : Nat → List Char → Option (JVal × List Char)
  | 0, _ => none
  | fuel + 1, l =>
    match l.dropWhile jsonWs with
    | '{' :: rest =>
      match rest.dropWhile jsonWs with
      | '}' :: r => some (.jobj [], r)
      | _ =>
        match parseJMembers fuel rest [] with
        | some (d, r) => some (.jobj d, r)
        | none => none
    | '[' :: rest =>
      match rest.dropWhile jsonWs with
      | ']' :: r => some (.jarr [], r)
      | _ =>
        match parseJItems fuel rest [] with
        | some (items, r) => some (.jarr items, r)
        | none => none
    | '"' :: rest =>
      match parseJString rest with
      | some (s, r) => some (.jstr s.asString, r)
      | none => none
    | 't' :: rest =>
      if lcharsStartsWith ("rue".toList) rest then some (.jbool true, rest.drop 3) else none
    | 'f' :: rest =>
      if lcharsStartsWith ("alse".toList) rest then some (.jbool false, rest.drop 4) else none
    | 'n' :: rest =>
      if lcharsStartsWith ("ull".toList) rest then some (.jnull, rest.drop 3) else none
    | 'N' :: rest =>
      if lcharsStartsWith ("aN".toList) rest then some (.jnumf "nan" false, rest.drop 2) else none
    | 'I' :: rest =>
      if lcharsStartsWith ("nfinity".toList) rest then
        some (.jnumf "inf" false, rest.drop 7) else none
    | '-' :: 'I' :: rest =>
      if lcharsStartsWith ("nfinity".toList) rest then
        some (.jnumf "-inf" false, rest.drop 7) else none
    | other => parseJNumber other

def parseJMembers : Nat → List Char → PyDict → Option (PyDict × List Char)
  | 0, _, _ => none
  | fuel + 1, l, acc =>
    match l.dropWhile jsonWs with
    | '"' :: rest =>
      match parseJString rest with
      | none => none
      | some (key, r1) =>
        match r1.dropWhile jsonWs with
        | ':' :: r2 =>
          match parseJValue fuel r2 with
          | none => none
          | some (v, r3) =>
            let acc' := pyDictAssign acc key.asString v
            match r3.dropWhile jsonWs with
            | ',' :: r4 => parseJMembers fuel r4 acc'
            | '}' :: r4 => some (acc', r4)
            | _ => none
        | _ => none
    | _ => none

def parseJItems : Nat → List Char → List JVal → Option (List JVal × List Char)
  | 0, _, _ => none
  | fuel + 1, l, acc =>
    match parseJValue fuel l with
    | none => none
    | some (v, r) =>
      match r.dropWhile jsonWs with
      | ',' :: r2 => parseJItems fuel r2 (acc ++ [v])
      | ']' :: r2 => some (acc ++ [v], r2)
      | _ => none
end

/-- `json.loads(s)`: parse one value and require only whitespace after. -/
def jsonLoads (s : String) : Option JVal :=
  match parseJValue (s.length + 1) s.toList with
  | some (v, rest) => if rest.dropWhile jsonWs = [] then some v else none
  | none => none

/-! ## The extraction strategies
(`get_mp3_url_from_page` and helpers, download_podcasts.py lines 165–401) -/

/-- ASCII lowering of a string to a character list (Python `str.lower()`;
non-ASCII lowering is not needed by the keys involved). -/
def lowerL (s : String) : List Char :=
  s.toList.map Char.toLower

def lcharsEndsWith (pat l : List Char) : Bool :=
  lcharsStartsWith pat.reverse l.reverse

def isJStr : JVal → Bool
  | .jstr _ => true
  | _ => false

def jstrVal : JVal → String
  | .jstr s => s
  | _ => ""

/-- The per-key body of `_walk_for_audio_fields` (lines 244–269): the
`if/elif` chain over the key, then the unconditional `.mp3`-suffix check. -/
def walkKeyVal (k : String) (v : JVal) (res : PyDict) : PyDict :=
  let kl := lowerL k
  let res :=
    if (k == "downloadURL" || k == "playerDownloadURL") && isJStr v then
      pyDictAssign res k v
    else if containsSub ("downloadurl".toList) kl && isJStr v then
      pyDictSetdefault res "downloadURL" v
    else if kl = "shiurid".toList then
      pyDictSetdefault res "shiurID" (.jstr (pyStr v))
    else if kl = "duration".toList || kl = "shiurduration".toList then
      pyDictSetdefault res "duration" v
    else if kl = "shiurmedialengthinseconds".toList || kl = "durationseconds".toList then
      pyDictSetdefault res "durationSeconds" v
    else if (kl = "title".toList || kl = "shiurtitle".toList) && isJStr v then
      pyDictSetdefault res "title" v
    else if (kl = "description".toList || kl = "shiurdescription".toList) && isJStr v then
      pyDictSetdefault res "description" v
    else if (kl = "shiurteacherfullname".toList || kl = "teachername".toList) && isJStr v then
      pyDictSetdefault res "teacherName" v
    else if kl = "shiururl".toList then
      pyDictSetdefault res "shiurURL" v
    else res
  if isJStr v && lcharsEndsWith (".mp3".toList) (lowerL (jstrVal v)) then
    pyDictSetdefault res "downloadURL" v
  else res

mutual
/-- `_walk_for_audio_fields(data, results)`: recursively scan nested JSON
for audio-related fields, accumulating into the results dict. -/
def walkAudio : JVal → PyDict → PyDict
  | .jobj fields, res => walkFields fields res
  | .jarr items, res => walkItems items res
  | _, res => res

def walkFields : List (String × JVal) → PyDict → PyDict
  | [], res => res
  | (k, v) :: rest, res => walkFields rest (walkAudio v (walkKeyVal k v res))

def walkItems : List JVal → PyDict → PyDict
  | [], res => res
  | v :: rest, res => walkItems rest (walkAudio v res)
end

/-! ### Strategy A — `_extract_from_lecture_player_data` (lines 277–305) -/

/-- One attempt of `var\s+lecturePlayerData\s*=\s*(\{.*?\});` (`re.DOTALL`)
at the current position: the literal `var`, one or more whitespace
characters, the literal name, `=` with optional surrounding whitespace, a
`{`, then the lazy body up to the first `};`.  The captured group is the
brace-delimited text. -/
def lpdVarMatchAt (l : List Char) : Option (List Char) :=
  if lcharsStartsWith ("var".toList) l then
    let l1 := l.drop 3
    let ws := l1.takeWhile isPySpace
    if ws.isEmpty then none
    else
      let l2 := l1.drop ws.length
      if lcharsStartsWith ("lecturePlayerData".toList) l2 then
        match (l2.drop 17).dropWhile isPySpace with
        | '=' :: l4 =>
          match l4.dropWhile isPySpace with
          | '{' :: l5 =>
            match splitFirst ("\x7d;".toList) l5 with
            | some (content, _) => some ('{' :: content ++ ['}'])
            | none => none
          | _ => none
        | _ => none
      else none
  else none

/-- `re.search` for the pattern above: first matching position. -/
def lpdSearch : List Char → Option (List Char)
  | [] => none
  | c :: rest =>
    match lpdVarMatchAt (c :: rest) with
    | some g => some g
    | none => lpdSearch rest

/-- The field mapping of Strategy A (the returned dict literal,
lines 294–305). -/
def lpdFields (data : PyDict) : PyDict :=
  [("downloadURL", dictGet data "downloadURL"),
   ("playerDownloadURL", dictGet data "playerDownloadURL"),
   ("shiurURL", dictGet data "shiurURL"),
   ("title", dictGet data "shiurTitle"),
   ("duration", dictGet data "shiurDuration"),
   ("durationSeconds", dictGet data "shiurMediaLengthInSeconds"),
   ("description", dictGet data "shiurDescription"),
   ("teacherName", dictGet data "shiurTeacherFullName"),
   ("shiurID", dictGet data "shiurID"),
   ("dateText", dictGet data "shiurDateText")]

/-- Strategy A.  The `json_error` marker value is a stand-in for CPython's
`JSONDecodeError` message text, which is outside the model.  The captured
group always starts with `{`, so a successful parse is always an object;
the non-object fallback below is unreachable. -/
def strategyA (html : String) : Option PyDict × PyDict :=
  match lpdSearch html.toList with
  | none => (none, [("lecturePlayerData_found", .jbool false)])
  | some g =>
    match jsonLoads g.asString with
    | none => (none, [("lecturePlayerData_found", .jbool true),
                      ("json_error", .jstr "JSONDecodeError")])
    | some (.jobj data) => (some (lpdFields data), [("lecturePlayerData_found", .jbool true)])
    | some _ => (none, [("lecturePlayerData_found", .jbool true)])

/-! ### Strategy B — `_extract_from_next_data` (lines 308–327) and
`_extract_json_script_blocks` (lines 233–241) -/

def typeJsonLit : List Char := "type=\"application/json\"".toList

/-- The `id="([^"]+)"` capture of the script-block regex.  Because the
leading `[^>]*?` is lazy and the later `[^>]*?` can absorb any attribute
text, the optional id group is only ever tried at the position immediately
after `<script`: it captures exactly when the tag text begins with
`id="…"` (case-insensitive, nonempty value, closed quote) and the type
literal occurs after it; in every other case — including the ordinary
`<script id="__NEXT_DATA__" …>` with a space — `findall` reports the
unmatched group as the empty string.  (Checked against CPython `re`.) -/
def findScriptId (tag : List Char) : String :=
  if lcharsStartsWithCI ("id=\"".toList) tag then
    let afterQ := tag.drop 4
    let v := afterQ.takeWhile (· ≠ '"')
    if !v.isEmpty && (afterQ.drop v.length).take 1 = ['"'] &&
       containsSubCI typeJsonLit (afterQ.drop (v.length + 1)) then
      v.asString
    else ""
  else ""

/-- One match of
`<script[^>]*?(?:id="([^"]+)")?[^>]*?type="application/json"[^>]*>(.*?)</script>`
(`re.DOTALL | re.IGNORECASE`): the attribute region runs to the first `>`;
the type literal must occur inside it; the body is the lazy run up to the
first `</script>`. -/
def scriptBlockMatch (l : List Char) : Option ((String × String) × List Char) :=
  if lcharsStartsWithCI ("<script".toList) l then
    let afterTag := l.drop 7
    match splitFirst ['>'] afterTag with
    | none => none
    | some (tag, afterGt) =>
      if containsSubCI typeJsonLit tag then
        match splitFirstCI ("</script>".toList) afterGt with
        | none => none
        | some (body, rem) => some ((findScriptId tag, body.asString), rem)
      else none
  else none

/-- `_extract_json_script_blocks`: all matches, keeping blocks whose
stripped body is non-empty. -/
def extractJsonScriptBlocks (html : List Char) : List (String × String) :=
  (scanAll scriptBlockMatch html).filterMap fun b =>
    let t := (pyStrip b.2.toList).asString
    if t = "" then none else some (b.1, t)

/-- The acceptance guard shared by Strategies B and C:
`results.get('downloadURL') or results.get('playerDownloadURL')`. -/
def usableAudio (d : PyDict) : Bool :=
  pyTruthy (dictGet d "downloadURL") || pyTruthy (dictGet d "playerDownloadURL")

/-- The `for block in next_blocks` loop of Strategy B: parse each block,
walk it, and accept the first whose walk finds a truthy `downloadURL` or
`playerDownloadURL`. -/
def tryNextBlocks : List (String × String) → Option PyDict
  | [] => none
  | (_, text) :: rest =>
    match jsonLoads text with
    | none => tryNextBlocks rest
    | some payload =>
      if usableAudio (walkAudio payload []) then some (walkAudio payload [])
      else tryNextBlocks rest

def strategyB (html : String) : Option PyDict × PyDict :=
  let blocks := extractJsonScriptBlocks html.toList
  let nextBlocks := blocks.filter fun b => b.1 == "__NEXT_DATA__"
  (tryNextBlocks nextBlocks,
   [("json_script_blocks", .jnum blocks.length),
    ("next_data_blocks", .jnum nextBlocks.length)])

/-! ### Strategy C — `_extract_from_script_blobs` (lines 330–355) -/

/-- Count non-overlapping case-insensitive occurrences
(`len(re.findall(pat, html, re.IGNORECASE))` for a literal pattern). -/
def countCI (pat : String) (l : List Char) : Nat :=
  (scanAll (fun l' => if lcharsStartsWithCI pat.toList l' then
      some ((), l'.drop pat.length) else none) l).length

/-- One match of `\{[^{}]*?(?:downloadURL|playerDownloadURL|shiurID)[^{}]*?\}`
(`re.DOTALL | re.IGNORECASE`): a `{`, a brace-free run containing one of the
key names, closed by the next brace when it is `}`. -/
def snippetMatch (l : List Char) : Option (List Char × List Char) :=
  match l with
  | '{' :: rest =>
    let run := rest.takeWhile fun c => c ≠ '{' && c ≠ '}'
    match rest.drop run.length with
    | '}' :: rem =>
      let runl := run.map Char.toLower
      if containsSub ("downloadurl".toList) runl ||
         containsSub ("playerdownloadurl".toList) runl ||
         containsSub ("shiurid".toList) runl then
        some ('{' :: run ++ ['}'], rem)
      else none
    | _ => none
  | _ => none

/-- One match of the bare-key-quoting substitution
`re.sub(r'([,{]\s*)([A-Za-z_][A-Za-z0-9_]*)\s*:', r'\1"\2":', snippet)`. -/
def bareKeyMatch (l : List Char) : Option (List Char × List Char) :=
  match l with
  | c :: rest =>
    if c = ',' || c = '{' then
      let ws := rest.takeWhile isPySpace
      let afterWs := rest.drop ws.length
      let ident := afterWs.takeWhile fun ch => ch.isAlpha || ch.isDigit || ch = '_'
      match ident with
      | i0 :: _ =>
        if i0.isAlpha || i0 = '_' then
          let afterIdent := afterWs.drop ident.length
          let ws2 := afterIdent.takeWhile isPySpace
          match afterIdent.drop ws2.length with
          | ':' :: rem => some (c :: ws ++ '"' :: ident ++ ['"', ':'], rem)
          | _ => none
        else none
      | [] => none
    else none
  | [] => none

/-- `cleaned`: quote bare keys, then replace single quotes with double
quotes. -/
def cleanSnippet (sn : List Char) : List Char :=
  (subAll bareKeyMatch sn).map fun c => if c = '\'' then '"' else c

/-- The `for snippet in snippets[:30]` loop: coerce to JSON, walk, accept
on a truthy audio field; all exceptions continue the loop. -/
def trySnippets : List (List Char) → Option PyDict
  | [] => none
  | sn :: rest =>
    match jsonLoads (cleanSnippet sn).asString with
    | none => trySnippets rest
    | some candidate =>
      if usableAudio (walkAudio candidate []) then some (walkAudio candidate [])
      else trySnippets rest

def urlcharOk (c : Char) : Bool :=
  !(c = '"' || c = '\'' || c = '>' || isPySpace c)

/-- The scheme of `https?://` (`re.IGNORECASE`): its length, or `none`. -/
def mp3SchemeLen (l : List Char) : Option Nat :=
  if lcharsStartsWithCI ("http".toList) l then
    if lcharsStartsWithCI ("s://".toList) (l.drop 4) then some 8
    else if lcharsStartsWith ("://".toList) (l.drop 4) then some 7
    else none
  else none

/-- Within the maximal URL-character run after the scheme: the matched
length — up to the last `.mp3` of the run (greedy backtracking over the
`[^"\'\s>]+` class, which must keep at least one character before the
`.mp3`), extended to the whole run when a `?` follows immediately. -/
def mp3RunMatch (run : List Char) : Option Nat :=
  match ((List.range run.length).filter fun i =>
      1 ≤ i && lcharsStartsWithCI (".mp3".toList) (run.drop i)).getLast? with
  | none => none
  | some i =>
    some (if (run.drop (i + 4)).take 1 = ['?'] then run.length else i + 4)

/-- One match of `https?://[^"\'\s>]+\.mp3(?:\?[^"\'\s>]*)?`
(`re.IGNORECASE`). -/
def mp3UrlMatch (l : List Char) : Option (List Char × List Char) :=
  match mp3SchemeLen l with
  | none => none
  | some sl =>
    match mp3RunMatch ((l.drop sl).takeWhile urlcharOk) with
    | none => none
    | some n => some (l.take (sl + n), l.drop (sl + n))

def strategyC (html : String) : Option PyDict × PyDict :=
  let hl := html.toList
  let markers : PyDict :=
    [("downloadURL_key_mentions", .jnum (countCI "downloadURL" hl)),
     ("shiurID_key_mentions", .jnum (countCI "shiurID" hl))]
  match trySnippets ((scanAll snippetMatch hl).take 30) with
  | some d => (some d, markers)
  | none =>
    match scanAll mp3UrlMatch hl with
    | [] => (none, markers)
    | u :: rest =>
      (some [("downloadURL", .jstr u.asString), ("playerDownloadURL", .jstr u.asString)],
       markers ++ [("mp3_match_count", .jnum (u :: rest).length)])

/-! ### Strategy D — `_extract_from_audio_tags` (lines 358–384) -/

/-- One match of the `\b`-guarded tag-count pattern (`<audio\b` or
`<source\b`). -/
def tagCountMatch (tagLit : List Char) (l : List Char) : Option (Unit × List Char) :=
  if lcharsStartsWithCI tagLit l then
    match l.drop tagLit.length with
    | [] => some ((), [])
    | c :: rest =>
      if c.isAlpha || c.isDigit || c = '_' then none else some ((), c :: rest)
  else none

def countTagCI (tagLit : String) (l : List Char) : Nat :=
  (scanAll (tagCountMatch tagLit.toList) l).length

/-- Given the candidate `src=` positions of a tag (descending), pick the
first with a nonempty quoted value (the regex's greedy backtracking over
`[^>]+`). -/
def pickSrcCandidate (afterTag : List Char) (q : Char) : List Nat → Option (List Char × List Char)
  | [] => none
  | i :: rest =>
    let afterSrc := afterTag.drop (i + 5)
    let v := afterSrc.takeWhile (· ≠ q)
    if !v.isEmpty && (afterSrc.drop v.length).take 1 = [q] then
      some (v, afterSrc.drop (v.length + 1))
    else pickSrcCandidate afterTag q rest

/-- One match of `<audio[^>]+src="([^"]+)"` and its three variants
(`re.IGNORECASE`): at least one non-`>` character after the tag name, then
the last `src=` (within the `>`-free region) followed by a nonempty
quoted value, which is the captured group. -/
def srcTagMatch (tagLit : List Char) (q : Char) (l : List Char) :
    Option (List Char × List Char) :=
  if lcharsStartsWithCI tagLit l then
    let afterTag := l.drop tagLit.length
    let region := afterTag.takeWhile (· ≠ '>')
    let cands := ((List.range region.length).filter fun i =>
      1 ≤ i && lcharsStartsWithCI ("src=".toList) (afterTag.drop i) &&
      ((afterTag.drop (i + 4)).take 1 = [q])).reverse
    pickSrcCandidate afterTag q cands
  else none

/-- The concatenated `candidates` list of Strategy D (the four `findall`
calls in source order). -/
def audioCandidates (hl : List Char) : List (List Char) :=
  scanAll (srcTagMatch ("<audio".toList) '"') hl ++
  scanAll (srcTagMatch ("<audio".toList) '\'') hl ++
  scanAll (srcTagMatch ("<source".toList) '"') hl ++
  scanAll (srcTagMatch ("<source".toList) '\'') hl

def strategyD (html : String) : Option PyDict × PyDict :=
  let hl := html.toList
  let markers : PyDict :=
    [("audio_tag_count", .jnum (countTagCI "<audio" hl)),
     ("source_tag_count", .jnum (countTagCI "<source" hl))]
  let candidates := audioCandidates hl
  match candidates.find? (fun u => containsSub (".mp3".toList) (u.map Char.toLower)) with
  | some u =>
    (some [("downloadURL", .jstr u.asString), ("playerDownloadURL", .jstr u.asString)], markers)
  | none =>
    match candidates with
    | [] => (none, markers)
    | u :: _ =>
      (some [("downloadURL", .jstr u.asString), ("playerDownloadURL", .jstr u.asString)], markers)

/-! ### Normalization and the driver
(`_normalize_episode_data`, lines 387–401; `get_mp3_url_from_page`,
lines 165–230.  The page fetch itself is I/O: the driver is modelled from
the fetched page body on; the `page_fetch_error` branch is outside the
model.) -/

structure EpisodeData where
  downloadURL : JVal
  playerDownloadURL : JVal
  shiurURL : JVal
  title : JVal
  duration : JVal
  durationSeconds : JVal
  description : JVal
  teacherName : JVal
  shiurID : Option String
  dateText : JVal
deriving DecidableEq

def normalizeEpisodeData (d : PyDict) (pageUrl : String) : EpisodeData where
  downloadURL := pyOr (dictGet d "downloadURL") (dictGet d "playerDownloadURL")
  playerDownloadURL := pyOr (dictGet d "playerDownloadURL") (dictGet d "downloadURL")
  shiurURL := pyOr (dictGet d "shiurURL") (.jstr pageUrl)
  title := pyOr (dictGet d "title") (dictGet d "shiurTitle")
  duration := pyOr (dictGet d "duration") (dictGet d "shiurDuration")
  durationSeconds := pyOr (dictGet d "durationSeconds") (dictGet d "shiurMediaLengthInSeconds")
  description := pyOr (dictGet d "description") (dictGet d "shiurDescription")
  teacherName := pyOr (dictGet d "teacherName") (dictGet d "shiurTeacherFullName")
  shiurID :=
    match dictGet d "shiurID" with
    | .jnull => extract_shiur_id pageUrl
    | v => some (pyStr v)
  dateText := pyOr (dictGet d "dateText") (dictGet d "shiurDateText")

inductive PageResult where
  | success (data : EpisodeData) (attempted : List String) (markers : List (String × PyDict))
  | failure (reason : String) (attempted : List String) (markers : List (String × PyDict))
      (shiurID : Option String)

abbrev Strategy := String → Option PyDict × PyDict

def theStrategies : List (String × Strategy) :=
  [("lecturePlayerData", strategyA), ("nextData", strategyB),
   ("scriptBlobs", strategyC), ("audioTags", strategyD)]

/-- The `for strategy_name, strategy in strategies` loop: markers are
recorded for every attempted strategy; the chain stops at the first truthy
(non-`None`, nonempty-dict) extraction and returns the normalized data
together with the attempted-strategy names and their markers; if the chain
is exhausted it returns the failure record of lines 210–219. -/
def runChain (html pageUrl : String) :
    List (String × Strategy) → List (String × PyDict) → PageResult
  | [], acc =>
    .failure "no_supported_audio_payload_found" (acc.map (·.1)) acc (extract_shiur_id pageUrl)
  | (name, strat) :: rest, acc =>
    let r := strat html
    let acc' := acc ++ [(name, r.2)]
    match r.1 with
    | some d =>
      if d.isEmpty then runChain html pageUrl rest acc'
      else .success (normalizeEpisodeData d pageUrl) (acc'.map (·.1)) acc'
    | none => runChain html pageUrl rest acc'

/-- `get_mp3_url_from_page(page_url)`, modelled from the fetched body on. -/
def get_mp3_url_from_page (html pageUrl : String) : PageResult :=
  runChain html pageUrl theStrategies []

/-! ### Facts about the individual strategies -/

theorem strategyA_some_ne_nil {html : String} {d m : PyDict}
    (h : strategyA html = (some d, m)) : d ≠ [] := by
  unfold strategyA at h
  cases hs : lpdSearch html.toList with
  | none => simp only [hs] at h; simp at h
  | some g =>
    cases hj : jsonLoads g.asString with
    | none => simp only [hs, hj] at h; simp at h
    | some v =>
      cases v with
      | jobj data =>
        simp only [hs, hj] at h
        obtain ⟨h1, h2⟩ := Prod.mk.injEq .. ▸ h
        obtain rfl := Option.some.inj h1
        simp [lpdFields]
      | jnull => simp only [hs, hj] at h; simp at h
      | jbool b => simp only [hs, hj] at h; simp at h
      | jnum i => simp only [hs, hj] at h; simp at h
      | jnumf r z => simp only [hs, hj] at h; simp at h
      | jstr s => simp only [hs, hj] at h; simp at h
      | jarr xs => simp only [hs, hj] at h; simp at h

theorem tryNextBlocks_some : ∀ {bs : List (String × String)} {d : PyDict},
    tryNextBlocks bs = some d → usableAudio d = true := by
  intro bs
  induction bs with
  | nil => intro d h; simp [tryNextBlocks] at h
  | cons b rest ih =>
    intro d h
    obtain ⟨idv, text⟩ := b
    rw [tryNextBlocks] at h
    cases hj : jsonLoads text with
    | none => simp only [hj] at h; exact ih h
    | some payload =>
      simp only [hj] at h
      by_cases hguard : usableAudio (walkAudio payload [])
      · rw [if_pos hguard] at h
        obtain rfl := Option.some.inj h
        exact hguard
      · rw [if_neg hguard] at h
        exact ih h

theorem trySnippets_some : ∀ {sns : List (List Char)} {d : PyDict},
    trySnippets sns = some d → usableAudio d = true := by
  intro sns
  induction sns with
  | nil => intro d h; simp [trySnippets] at h
  | cons sn rest ih =>
    intro d h
    rw [trySnippets] at h
    cases hj : jsonLoads (cleanSnippet sn).asString with
    | none => simp only [hj] at h; exact ih h
    | some candidate =>
      simp only [hj] at h
      by_cases hguard : usableAudio (walkAudio candidate [])
      · rw [if_pos hguard] at h
        obtain rfl := Option.some.inj h
        exact hguard
      · rw [if_neg hguard] at h
        exact ih h

theorem strategyB_some_usable {html : String} {d m : PyDict}
    (h : strategyB html = (some d, m)) : usableAudio d = true := by
  unfold strategyB at h
  obtain ⟨h1, h2⟩ := Prod.mk.injEq .. ▸ h
  exact tryNextBlocks_some h1

theorem pyTruthy_jstr {s : String} (h : s ≠ "") : pyTruthy (.jstr s) = true := by
  simp [pyTruthy, h]

theorem asString_ne_empty {l : List Char} (h : l ≠ []) : l.asString ≠ "" := by
  intro hc; rw [List.asString_eq] at hc; exact h hc

theorem take_ne_nil {l : List Char} {n : Nat} (hn : n ≠ 0) (hl : l ≠ []) :
    l.take n ≠ [] := by
  cases l with
  | nil => exact absurd rfl hl
  | cons c rest =>
    cases n with
    | zero => exact absurd rfl hn
    | succ k => simp

theorem mp3SchemeLen_some {l : List Char} {sl : Nat} (h : mp3SchemeLen l = some sl) :
    1 ≤ sl ∧ l ≠ [] := by
  unfold mp3SchemeLen at h
  by_cases hhttp : lcharsStartsWithCI ("http".toList) l
  · have hl : l ≠ [] := by
      intro hc; rw [hc] at hhttp; simp [lcharsStartsWithCI] at hhttp
    rw [if_pos hhttp] at h
    by_cases h8 : lcharsStartsWithCI ("s://".toList) (l.drop 4)
    · rw [if_pos h8] at h
      obtain rfl := Option.some.inj h
      exact ⟨by omega, hl⟩
    · rw [if_neg h8] at h
      by_cases h7 : lcharsStartsWith ("://".toList) (l.drop 4)
      · rw [if_pos h7] at h
        obtain rfl := Option.some.inj h
        exact ⟨by omega, hl⟩
      · rw [if_neg h7] at h; exact absurd h (by simp)
  · rw [if_neg hhttp] at h; exact absurd h (by simp)

theorem mp3UrlMatch_ne_nil {l u r : List Char} (h : mp3UrlMatch l = some (u, r)) :
    u ≠ [] := by
  unfold mp3UrlMatch at h
  cases hsl : mp3SchemeLen l with
  | none => simp only [hsl] at h; simp at h
  | some sl =>
    obtain ⟨hsl1, hlne⟩ := mp3SchemeLen_some hsl
    simp only [hsl] at h
    cases hrn : mp3RunMatch ((l.drop sl).takeWhile urlcharOk) with
    | none => simp only [hrn] at h; simp at h
    | some n =>
      simp only [hrn] at h
      obtain ⟨h1, h2⟩ := Prod.mk.injEq .. ▸ Option.some.inj h
      rw [← h1]
      exact take_ne_nil (by omega) hlne

theorem strategyC_some_usable {html : String} {d m : PyDict}
    (h : strategyC html = (some d, m)) : usableAudio d = true := by
  unfold strategyC at h
  cases hts : trySnippets ((scanAll snippetMatch html.toList).take 30) with
  | some d' =>
    simp only [hts] at h
    obtain ⟨h1, h2⟩ := Prod.mk.injEq .. ▸ h
    obtain rfl := Option.some.inj h1
    exact trySnippets_some hts
  | none =>
    cases hm : scanAll mp3UrlMatch html.toList with
    | nil => simp only [hts] at h; simp only [hm] at h; simp at h
    | cons u rest =>
      simp only [hts] at h
      simp only [hm] at h
      obtain ⟨h1, h2⟩ := Prod.mk.injEq .. ▸ h
      obtain rfl := Option.some.inj h1
      have humem : u ∈ scanAll mp3UrlMatch html.toList := by
        rw [hm]; exact List.mem_cons_self _ _
      obtain ⟨l', r', hmatch⟩ := mem_scanAll humem
      have hune : u ≠ [] := mp3UrlMatch_ne_nil hmatch
      unfold usableAudio
      have hget : dictGet [("downloadURL", JVal.jstr u.asString),
          ("playerDownloadURL", JVal.jstr u.asString)] "downloadURL" = .jstr u.asString := rfl
      rw [hget, pyTruthy_jstr (asString_ne_empty hune), Bool.true_or]

theorem pickSrcCandidate_ne_nil {afterTag : List Char} {q : Char} :
    ∀ {cands : List Nat} {v rem : List Char},
      pickSrcCandidate afterTag q cands = some (v, rem) → v ≠ [] := by
  intro cands
  induction cands with
  | nil => intro v rem h; simp [pickSrcCandidate] at h
  | cons i rest ih =>
    intro v rem h
    rw [pickSrcCandidate] at h
    split at h
    · next hguard =>
      obtain ⟨h1, h2⟩ := Prod.mk.injEq .. ▸ Option.some.inj h
      rw [← h1]
      intro hc
      rw [hc] at hguard
      simp at hguard
    · exact ih h

theorem srcTagMatch_ne_nil {t : List Char} {q : Char} {l v r : List Char}
    (h : srcTagMatch t q l = some (v, r)) : v ≠ [] := by
  unfold srcTagMatch at h
  split at h
  · exact pickSrcCandidate_ne_nil h
  · simp at h

theorem audioCandidates_ne_nil {hl : List Char} {u : List Char}
    (h : u ∈ audioCandidates hl) : u ≠ [] := by
  unfold audioCandidates at h
  rcases List.mem_append.mp h with h1 | h1
  · rcases List.mem_append.mp h1 with h2 | h2
    · rcases List.mem_append.mp h2 with h3 | h3
      · obtain ⟨l', r', hm⟩ := mem_scanAll h3; exact srcTagMatch_ne_nil hm
      · obtain ⟨l', r', hm⟩ := mem_scanAll h3; exact srcTagMatch_ne_nil hm
    · obtain ⟨l', r', hm⟩ := mem_scanAll h2; exact srcTagMatch_ne_nil hm
  · obtain ⟨l', r', hm⟩ := mem_scanAll h1; exact srcTagMatch_ne_nil hm

theorem strategyD_some_usable {html : String} {d m : PyDict}
    (h : strategyD html = (some d, m)) : usableAudio d = true := by
  unfold strategyD at h
  cases hf : (audioCandidates html.toList).find?
      (fun u => containsSub (".mp3".toList) (u.map Char.toLower)) with
  | some u =>
    simp only [hf] at h
    obtain ⟨h1, h2⟩ := Prod.mk.injEq .. ▸ h
    obtain rfl := Option.some.inj h1
    have humem := List.mem_of_find?_eq_some hf
    have hune := audioCandidates_ne_nil humem
    unfold usableAudio
    have hget : dictGet [("downloadURL", JVal.jstr u.asString),
        ("playerDownloadURL", JVal.jstr u.asString)] "downloadURL" = .jstr u.asString := rfl
    rw [hget, pyTruthy_jstr (asString_ne_empty hune), Bool.true_or]
  | none =>
    cases hc : audioCandidates html.toList with
    | nil => simp only [hf] at h; simp only [hc] at h; simp at h
    | cons u rest =>
      simp only [hf] at h
      simp only [hc] at h
      obtain ⟨h1, h2⟩ := Prod.mk.injEq .. ▸ h
      obtain rfl := Option.some.inj h1
      have humem : u ∈ audioCandidates html.toList := by
        rw [hc]; exact List.mem_cons_self _ _
      have hune := audioCandidates_ne_nil humem
      unfold usableAudio
      have hget : dictGet [("downloadURL", JVal.jstr u.asString),
          ("playerDownloadURL", JVal.jstr u.asString)] "downloadURL" = .jstr u.asString := rfl
      rw [hget, pyTruthy_jstr (asString_ne_empty hune), Bool.true_or]

/-- A successful chain run comes from some listed strategy returning a
truthy dict, whose normalization is the returned data; the winner is the
last attempted strategy. -/
theorem runChain_success {html pageUrl : String} :
    ∀ (rem : List (String × Strategy)) (acc : List (String × PyDict))
      {nd : EpisodeData} {att : List String} {mk : List (String × PyDict)},
      runChain html pageUrl rem acc = .success nd att mk →
      ∃ name strat d m, (name, strat) ∈ rem ∧ strat html = (some d, m) ∧ d ≠ [] ∧
        nd = normalizeEpisodeData d pageUrl ∧ att.getLast? = some name := by
  intro rem
  induction rem with
  | nil => intro acc nd att mk h; simp [runChain] at h
  | cons p rest ih =>
    obtain ⟨name, strat⟩ := p
    intro acc nd att mk h
    rw [runChain] at h
    cases hs : strat html with
    | mk ext mkrs =>
      cases ext with
      | none =>
        simp only [hs] at h
        obtain ⟨n', s', d, m, hmem, hrest⟩ := ih _ h
        exact ⟨n', s', d, m, List.mem_cons_of_mem _ hmem, hrest⟩
      | some d =>
        simp only [hs] at h
        by_cases hde : d.isEmpty
        · rw [if_pos hde] at h
          obtain ⟨n', s', d', m, hmem, hrest⟩ := ih _ h
          exact ⟨n', s', d', m, List.mem_cons_of_mem _ hmem, hrest⟩
        · rw [if_neg hde] at h
          injection h with h1 h2 h3
          refine ⟨name, strat, d, mkrs, List.mem_cons_self _ _, hs,
            by simpa using hde, h1.symm, ?_⟩
          rw [← h2]
          simp

/-- C2: a page body satisfying both Strategy A's pattern (the
`lecturePlayerData` variable with parseable JSON, i.e. a successful
`strategyA`) and Strategy D's pattern (a successful `strategyD`) makes the
extractor return Strategy A's extracted fields — the chain stops at A, the
only attempted strategy, and never reaches D. -/
theorem strategy_ordering (html url : String) (d m d' m' : PyDict)
    (hA : strategyA html = (some d, m)) (_hD : strategyD html = (some d', m')) :
    get_mp3_url_from_page html url =
      .success (normalizeEpisodeData d url) ["lecturePlayerData"] [("lecturePlayerData", m)] := by
  have hne : d ≠ [] := strategyA_some_ne_nil hA
  unfold get_mp3_url_from_page theStrategies
  rw [runChain]
  simp only [hA]
  rw [if_neg (by simpa using hne)]
  rfl

set_option maxRecDepth 40000 in
theorem strategy_ordering_witness :
    get_mp3_url_from_page
      "var lecturePlayerData = \x7b\"downloadURL\": \"/x.mp3\"\x7d; <audio src=\"/y.mp3\">"
      "https://site/lectures/details?shiurID=42" =
      .success (normalizeEpisodeData
          [("downloadURL", .jstr "/x.mp3"), ("playerDownloadURL", .jnull), ("shiurURL", .jnull),
           ("title", .jnull), ("duration", .jnull), ("durationSeconds", .jnull),
           ("description", .jnull), ("teacherName", .jnull), ("shiurID", .jnull),
           ("dateText", .jnull)]
          "https://site/lectures/details?shiurID=42")
        ["lecturePlayerData"]
        [("lecturePlayerData", [("lecturePlayerData_found", .jbool true)])] :=
  strategy_ordering _ _ _ _ _ _ rfl rfl

/-- C3 amended: when every strategy returns a falsy extraction (`None` —
B, C and D return `None` exactly when they find no usable audio reference,
while A can also fail on a missing variable or unparseable JSON), `extract`
returns the failure record: reason `no_supported_audio_payload_found`, all
four strategy names in chain order, every strategy's markers, and the
URL-derived identifier. -/
theorem extraction_failure_reporting (html url : String) (mA mB mC mD : PyDict)
    (hA : strategyA html = (none, mA)) (hB : strategyB html = (none, mB))
    (hC : strategyC html = (none, mC)) (hD : strategyD html = (none, mD)) :
    get_mp3_url_from_page html url =
      .failure "no_supported_audio_payload_found"
        ["lecturePlayerData", "nextData", "scriptBlobs", "audioTags"]
        [("lecturePlayerData", mA), ("nextData", mB), ("scriptBlobs", mC), ("audioTags", mD)]
        (extract_shiur_id url) := by
  unfold get_mp3_url_from_page theStrategies
  rw [runChain]
  simp only [hA]
  rw [runChain]
  simp only [hB]
  rw [runChain]
  simp only [hC]
  rw [runChain]
  simp only [hD]
  rw [runChain]
  simp

set_option maxRecDepth 40000 in
theorem extraction_failure_reporting_witness :
    get_mp3_url_from_page "hello" "https://site/about" =
      .failure "no_supported_audio_payload_found"
        ["lecturePlayerData", "nextData", "scriptBlobs", "audioTags"]
        [("lecturePlayerData", [("lecturePlayerData_found", .jbool false)]),
         ("nextData", [("json_script_blocks", .jnum 0), ("next_data_blocks", .jnum 0)]),
         ("scriptBlobs", [("downloadURL_key_mentions", .jnum 0),
                          ("shiurID_key_mentions", .jnum 0)]),
         ("audioTags", [("audio_tag_count", .jnum 0), ("source_tag_count", .jnum 0)])]
        (extract_shiur_id "https://site/about") :=
  extraction_failure_reporting "hello" "https://site/about" _ _ _ _ rfl rfl rfl rfl

/-- C3 fails as stated: on this page no strategy finds a usable audio
reference (A's extraction has null `downloadURL` and `playerDownloadURL`;
B, C and D extract nothing), yet `extract` does not return the failure
record — Strategy A's 10-key dict of mostly-`None` values is truthy, so the
chain stops at A and reports success with only one attempted strategy. -/
theorem extraction_failure_counterexample :
    (strategyA "var lecturePlayerData = \x7b\"shiurTitle\": \"T\"\x7d;").1 =
      some [("downloadURL", .jnull), ("playerDownloadURL", .jnull), ("shiurURL", .jnull),
            ("title", .jstr "T"), ("duration", .jnull), ("durationSeconds", .jnull),
            ("description", .jnull), ("teacherName", .jnull), ("shiurID", .jnull),
            ("dateText", .jnull)] ∧
    usableAudio
      [("downloadURL", .jnull), ("playerDownloadURL", .jnull), ("shiurURL", .jnull),
       ("title", .jstr "T"), ("duration", .jnull), ("durationSeconds", .jnull),
       ("description", .jnull), ("teacherName", .jnull), ("shiurID", .jnull),
       ("dateText", .jnull)] = false ∧
    (strategyB "var lecturePlayerData = \x7b\"shiurTitle\": \"T\"\x7d;").1 = none ∧
    (strategyC "var lecturePlayerData = \x7b\"shiurTitle\": \"T\"\x7d;").1 = none ∧
    (strategyD "var lecturePlayerData = \x7b\"shiurTitle\": \"T\"\x7d;").1 = none ∧
    get_mp3_url_from_page "var lecturePlayerData = \x7b\"shiurTitle\": \"T\"\x7d;"
        "https://site/about" =
      .success ⟨.jnull, .jnull, .jstr "https://site/about", .jstr "T", .jnull, .jnull,
          .jnull, .jnull, none, .jnull⟩
        ["lecturePlayerData"]
        [("lecturePlayerData", [("lecturePlayerData_found", .jbool true)])] :=
  ⟨rfl, rfl, rfl, rfl, rfl, rfl⟩

/-- C1 amended: whenever the chain declares success, the returned data is
the normalization of the winning strategy's dict, in which `downloadURL`
and `playerDownloadURL` each default to the other through Python `or`; and
whenever the winner (the last attempted strategy) is not Strategy A, both
fields are truthy — in particular non-null.  Strategy A alone can win with
both fields null, because its 10-key dict is truthy even without any audio
reference (see the counterexample for the unamended claim). -/
theorem normalization_on_success (html url : String) (nd : EpisodeData)
    (att : List String) (mk : List (String × PyDict))
    (h : get_mp3_url_from_page html url = .success nd att mk) :
    (∃ d : PyDict, d ≠ [] ∧ nd = normalizeEpisodeData d url ∧
      nd.downloadURL = pyOr (dictGet d "downloadURL") (dictGet d "playerDownloadURL") ∧
      nd.playerDownloadURL = pyOr (dictGet d "playerDownloadURL") (dictGet d "downloadURL")) ∧
    (att.getLast? ≠ some "lecturePlayerData" →
      pyTruthy nd.downloadURL = true ∧ pyTruthy nd.playerDownloadURL = true) := by
  obtain ⟨name, strat, d, m, hmem, hstrat, hdne, hnd, hlast⟩ :=
    runChain_success theStrategies [] h
  constructor
  · exact ⟨d, hdne, hnd, by rw [hnd]; rfl, by rw [hnd]; rfl⟩
  · intro hne
    have hnameeq : name ≠ "lecturePlayerData" := by
      intro hc; rw [hc] at hlast; exact hne hlast
    simp only [theStrategies, List.mem_cons, List.not_mem_nil, or_false] at hmem
    have husable : usableAudio d = true := by
      rcases hmem with h1 | h1 | h1 | h1
      · exact absurd (congrArg Prod.fst h1) hnameeq
      · have hst : strat = strategyB := congrArg Prod.snd h1
        rw [hst] at hstrat
        exact strategyB_some_usable hstrat
      · have hst : strat = strategyC := congrArg Prod.snd h1
        rw [hst] at hstrat
        exact strategyC_some_usable hstrat
      · have hst : strat = strategyD := congrArg Prod.snd h1
        rw [hst] at hstrat
        exact strategyD_some_usable hstrat
    constructor
    · rw [hnd]
      show pyTruthy (pyOr (dictGet d "downloadURL") (dictGet d "playerDownloadURL")) = true
      rw [pyTruthy_pyOr]
      exact husable
    · rw [hnd]
      show pyTruthy (pyOr (dictGet d "playerDownloadURL") (dictGet d "downloadURL")) = true
      rw [pyTruthy_pyOr, Bool.or_comm]
      exact husable

/-- The episode data of the C1 witness page. -/
def c1WitnessData : EpisodeData :=
  ⟨.jstr "/files/a.mp3", .jstr "/files/a.mp3", .jstr "https://site/x", .jnull, .jnull, .jnull,
   .jnull, .jnull, none, .jnull⟩

set_option maxRecDepth 40000 in
theorem normalization_on_success_witness :
    pyTruthy c1WitnessData.downloadURL = true ∧
    pyTruthy c1WitnessData.playerDownloadURL = true :=
  (normalization_on_success "<audio src=\"/files/a.mp3\">" "https://site/x"
    c1WitnessData
    ["lecturePlayerData", "nextData", "scriptBlobs", "audioTags"]
    [("lecturePlayerData", [("lecturePlayerData_found", .jbool false)]),
     ("nextData", [("json_script_blocks", .jnum 0), ("next_data_blocks", .jnum 0)]),
     ("scriptBlobs", [("downloadURL_key_mentions", .jnum 0), ("shiurID_key_mentions", .jnum 0)]),
     ("audioTags", [("audio_tag_count", .jnum 1), ("source_tag_count", .jnum 0)])]
    rfl).2 (by decide)

set_option maxRecDepth 40000 in
/-- C1 fails as stated: on `var lecturePlayerData = {};` the chain declares
success (strategy A's all-`None` field dict is truthy), yet the normalized
result has `downloadURL` and `playerDownloadURL` both null — the chain did
not stop at a strategy with a usable audio reference. -/
theorem normalization_counterexample :
    get_mp3_url_from_page "var lecturePlayerData = {};"
        "https://site/lectures/details?shiurID=42" =
      .success ⟨.jnull, .jnull, .jstr "https://site/lectures/details?shiurID=42", .jnull,
          .jnull, .jnull, .jnull, .jnull, some "42", .jnull⟩
        ["lecturePlayerData"]
        [("lecturePlayerData", [("lecturePlayerData_found", .jbool true)])] :=
  rfl

/-! ## `download_mp3` (download_podcasts.py lines 463–524)

The network and the file system are modelled explicitly: the file system
is the list of existing paths, and the network behaviour is a parameter —
either `session.get`/`raise_for_status` raises, or a response body is
streamed, optionally failing part-way (any of: reading `content-length`,
reading `response.content`, or the `iter_content` loop; all have the same
file-system effect, since `open(filepath, 'wb')` has already created the
file, and the `except` handler removes it).  The content-length and chunk
sizes do not influence which files exist, so they are carried only for
shape. -/

inductive NetBehavior where
  | raiseOnGet (msg : String)
  | body (contentLength : Nat) (chunks : List Nat) (midError : Option String)

inductive PyOutcome where
  | ret (b : Bool)
  | exc (name : String)
deriving DecidableEq

/-- `os.path.basename`: the part after the last `/`. -/
def pyBasename (path : List Char) : List Char :=
  (path.reverse.takeWhile (· ≠ '/')).reverse

/-- `os.path.join` for the shapes used here. -/
def joinPath (dir fn : String) : String :=
  if fn.toList.take 1 = ['/'] then fn
  else if dir = "" then fn
  else if dir.toList.getLast? = some '/' then dir ++ fn
  else dir ++ "/" ++ fn

/-- The destination path `filepath` computed in lines 477–487, or `none`
when `urlparse` itself raises (invalid bracketed host) so that `filepath`
is never assigned. -/
def computeFilepath (mp3_url title output_dir : String) : Option String :=
  if urlparseRaises mp3_url.toList then none
  else
    let url_filename := pyBasename (urlPath mp3_url.toList)
    let filename :=
      if !url_filename.isEmpty && lcharsEndsWith (".mp3".toList) url_filename then
        sanitize_filename url_filename.asString
      else sanitize_filename title ++ ".mp3"
    some (joinPath output_dir filename)

/-- `download_mp3(mp3_url, title, output_dir)`: result and new file
system.  When `urlparse` raises, the `except Exception` handler evaluates
`os.path.exists(filepath)` with `filepath` unbound and an
`UnboundLocalError` propagates out of the function. -/
def download_mp3 (net : NetBehavior) (mp3_url title output_dir : String)
    (fs : List String) : PyOutcome × List String :=
  match computeFilepath mp3_url title output_dir with
  | none => (.exc "UnboundLocalError", fs)
  | some filepath =>
    if fs.contains filepath then (.ret true, fs)
    else
      match net with
      | .raiseOnGet _ =>
        (.ret false, if fs.contains filepath then fs.erase filepath else fs)
      | .body _ _ midError =>
        match midError with
        | some _ =>
          (.ret false, if (fs ++ [filepath]).contains filepath then
            (fs ++ [filepath]).erase filepath else fs ++ [filepath])
        | none => (.ret true, fs ++ [filepath])

theorem erase_append_singleton {fs : List String} {p : String} (h : fs.contains p = false) :
    (fs ++ [p]).erase p = fs := by
  have hmem : p ∉ fs := by simpa using h
  rw [List.erase_append_right _ hmem]
  simp

/-- C10: the cleanup guarantee holds — whenever `download_mp3` returns
`False`, no file exists afterwards at the destination path it computed —
but the "returns `False` rather than propagating" part is a code bug: for
a URL whose netloc has mismatched brackets (e.g. `http://[invalid/a.mp3`),
`urlparse` raises before `filepath` is assigned and the `except` handler
itself raises `UnboundLocalError`, which propagates, contradicting the
function's own docstring ("True if successful, False otherwise"). -/
theorem download_mp3_cleanup :
    (∀ (net : NetBehavior) (mp3_url title output_dir : String)
       (fs fs' : List String) (p : String),
      download_mp3 net mp3_url title output_dir fs = (.ret false, fs') →
      computeFilepath mp3_url title output_dir = some p →
      fs'.contains p = false) ∧
    download_mp3 (.raiseOnGet "connection error") "http://[invalid/a.mp3" "t" "out" [] =
      (.exc "UnboundLocalError", []) := by
  constructor
  · intro net mp3_url title output_dir fs fs' p h hp
    unfold download_mp3 at h
    simp only [hp] at h
    by_cases hc : fs.contains p
    · rw [if_pos hc] at h
      obtain ⟨h1, h2⟩ := Prod.mk.injEq .. ▸ h
      exact absurd h1 (by simp)
    · rw [if_neg hc] at h
      have hcf : fs.contains p = false := by
        cases hx : fs.contains p
        · rfl
        · exact absurd hx hc
      cases net with
      | raiseOnGet msg =>
        obtain ⟨h1, h2⟩ := Prod.mk.injEq .. ▸ h
        rw [← h2, if_neg hc]
        exact hcf
      | body cl chunks midError =>
        cases midError with
        | some msg =>
          obtain ⟨h1, h2⟩ := Prod.mk.injEq .. ▸ h
          rw [← h2, if_pos (by simp), erase_append_singleton hcf]
          exact hcf
        | none =>
          obtain ⟨h1, h2⟩ := Prod.mk.injEq .. ▸ h
          exact absurd h1 (by simp)
  · rfl

theorem download_mp3_cleanup_witness :
    ([] : List String).contains "out/a.mp3" = false :=
  download_mp3_cleanup.1 (.raiseOnGet "boom") "http://x/a.mp3" "t" "out" [] [] "out/a.mp3"
    rfl rfl

end YuTorah
